import Mathlib

/-!
Verification of the `regexr` library (src/regexr/string.py) against its
specification.

The development shallowly embeds the segment tree of `string.py`:

* `Seg` / `Args` / `Arg` / `OptArg` mirror the `Segment` class hierarchy;
  a Python `str` child is `Arg.str`, a nested segment is `Arg.seg`.
* `Seg.strRaw` translates the `_str_raw` methods, `Seg.render` translates
  `Segment.__str__`, `Seg.prettyRaw` translates the `_pretty_raw` methods
  and `Seg.pretty` translates `Segment.pretty`.
* `mkQuant`, `mkRepeat`, `mkRepeatExact`, `mkLazy`, `mkRaw`, `mkCaptured`,
  `mkConditional` and `mkRegexr` translate the constructors (`__init__` /
  `__new__`) together with their validation, returning `Except Err _`.

Modelling notes, faithful to CPython semantics:

* `reEscape` is `re.escape` of Python >= 3.7: exactly the characters of
  the set `()[]\x7b\x7d?*+-|^$\.&~# \t\n\r\v\f` are prefixed with a
  backslash.
* `pyIsIdentifier` models `str.isidentifier` on ASCII strings (letters,
  digits, underscore, not starting with a digit).  The theorems below never
  depend on non-ASCII identifier behaviour.
* `splitNl` models line splitting on `'\n'` only.  Python's
  `str.splitlines` also splits on `\r`, `\v`, `\f` and some further
  Unicode line breaks; the pretty-printing theorems therefore restrict to
  trees whose literal content contains none of those characters
  (`Seg.noWS`).
* `Quantifier._str_raw` evaluates `self.args[0]`, which raises
  `IndexError` on a quantifier constructed with zero children.
  `Seg.crashFree` records exactly the trees on which rendering does not
  raise; `quantWrap Args.nil` is given the harmless value `false` in the
  total model and every theorem about rendering quantifiers either fixes a
  nonempty child list or assumes `crashFree`.
-/

/-! ### Python string primitives -/

/-- Characters escaped by `re.escape` in Python >= 3.7 (the byte set
`()[]\x7b\x7d?*+-|^$\.&~# \t\n\r\v\f` of `re._special_chars_map`). -/
def reSpecialChar (c : Char) : Bool :=
  c = '(' || c = ')' || c = '[' || c = ']' || c = '\x7b' || c = '\x7d' ||
  c = '?' || c = '*' || c = '+' || c = '-' || c = '|' || c = '^' ||
  c = '$' || c = '\\' || c = '.' || c = '&' || c = '~' || c = '#' ||
  c = ' ' || c = '\t' || c = '\n' || c = '\r' || c = '\x0b' || c = '\x0c'

/-- Translation of `re.escape`: prefix every special character with a
backslash. -/
def reEscape (s : String) : String :=
  String.mk (s.data.foldr (fun c acc => if reSpecialChar c then '\\' :: c :: acc else c :: acc) [])

/-- Model of `str.isidentifier` restricted to ASCII: nonempty, first
character a letter or underscore, remaining characters letters, digits or
underscore. -/
def pyIsIdentifier (s : String) : Bool :=
  match s.data with
  | [] => false
  | c :: rest => (c.isAlpha || c = '_') && rest.all (fun d => d.isAlphanum || d = '_')

/-- The recognised flag characters of `_flags_to_str` (the string
`"aiLmsux"`). -/
def flagCharOk (c : Char) : Bool :=
  c = 'a' || c = 'i' || c = 'L' || c = 'm' || c = 's' || c = 'u' || c = 'x'

/-! ### Line utilities used by the pretty printer

`splitNl` is the full split of a character list at `'\n'` (the model of
both `str.splitlines` — after dropping a trailing empty piece — and
`str.split("\n")`). -/

/-- Split a character list at every newline; always returns at least one
(possibly empty) piece. -/
def splitNl : List Char → List (List Char)
  | [] => [[]]
  | c :: rest =>
    if c = '\n' then [] :: splitNl rest
    else (splitNl rest).modifyHead (fun l => c :: l)

/-- Join strings with a newline between consecutive elements
(`"\n".join` in Python). -/
def joinNl : List String → String
  | [] => ""
  | [l] => l
  | l :: rest => l ++ "\n" ++ joinNl rest

/-- Python `s.split("\n")`. -/
def splitAllNl (s : String) : List String :=
  (splitNl s.data).map (fun l => String.mk l)

/-- Python `s.splitlines()` for strings whose only line break character is
`'\n'`: like `splitAllNl` but without a trailing empty piece. -/
def splitlinesPy (s : String) : List String :=
  let parts := splitAllNl s
  match parts.getLast? with
  | some l => if l = "" then parts.dropLast else parts
  | none => parts

/-- Python `indent * level` (string repetition). -/
def srep (s : String) : Nat → String
  | 0 => ""
  | n + 1 => s ++ srep s n

/-- Whether a string contains a newline (Python `"\n" in s`). -/
def hasNl (s : String) : Bool := s.data.any (fun c => c = '\n')

/-- The strip-and-concatenate operation of the specification: split the
string into lines, drop the leading spaces and tabs of every line, and
concatenate the lines with no separator. -/
def stripConcat (s : String) : String :=
  String.mk (((splitNl s.data).map (fun l => l.dropWhile (fun c => c = ' ' || c = '\t'))).flatten)

/-! ### The segment data model -/

/-- The `capture` argument of `Segment.__init__`: `False`, `True`, or a
capture-name string. -/
inductive Cap where
  | none
  | anon
  | named (s : String)
deriving DecidableEq, Repr

/-- Python truthiness of the stored `capture` value (`False`/`True`/str). -/
def Cap.truthy : Cap → Bool
  | .none => false
  | .anon => true
  | .named s => s ≠ ""

/-- The four lookaround classes, distinguished only by their `PREFIX`
class variable. -/
inductive LookKind where
  | ahead
  | behind
  | aheadNot
  | behindNot
deriving DecidableEq, Repr

/-- The `PREFIX` class variable of the `Look` subclasses. -/
def LookKind.pfx : LookKind → String
  | .ahead => "?="
  | .behind => "?<="
  | .aheadNot => "?!"
  | .behindNot => "?<!"

/-- The five quantifier classes with their stored bounds. -/
inductive QuantKind where
  | zeroOrMore
  | oneOrMore
  | maybe
  | repeatMN (m : Int) (n : Option Int)
  | repeatExact (m : Int)
deriving DecidableEq, Repr

/-- The `_quantifier` property of each quantifier class. -/
def QuantKind.symbol : QuantKind → String
  | .zeroOrMore => "*"
  | .oneOrMore => "+"
  | .maybe => "?"
  | .repeatMN m n =>
    "\x7b" ++ toString m ++ "," ++ (match n with | Option.none => "" | Option.some k => toString k) ++ "\x7d"
  | .repeatExact m => "\x7b" ++ toString m ++ "\x7d"

/-- A backreference target: a group name or a group index. -/
inductive RefTarget where
  | byName (s : String)
  | byNum (n : Int)
deriving DecidableEq, Repr

/-- The `id_or_name` argument of `Conditional`: either a `Captured` node
(whose own target is substituted) or a bare name/index. -/
inductive CondSel where
  | fromCaptured (t : RefTarget)
  | bare (t : RefTarget)
deriving DecidableEq, Repr

/-- The target carried by a conditional selector. -/
def CondSel.target : CondSel → RefTarget
  | .fromCaptured t => t
  | .bare t => t

/-- Rendering of a backreference target inside `(?(...))` and `\\<n>`
(Python f-string interpolation of the stored `str` or `int`). -/
def RefTarget.interp : RefTarget → String
  | .byName s => s
  | .byNum n => toString n

mutual
/-- The segment tree.  One constructor per concrete class of
`string.py`; every constructor carries the `args` tuple and the stored
`capture` and `flags` fields of `Segment.__init__` (`flags` is the final
combined string `f"\x7bflags\x7d\x7bdeflags\x7d"`). -/
inductive Seg where
  | oneOf (args : Args) (capture : Cap) (flags : String)
  | noneOf (args : Args) (capture : Cap) (flags : String)
  | look (k : LookKind) (args : Args) (capture : Cap) (flags : String)
  | quant (k : QuantKind) (lz : Bool) (args : Args) (capture : Cap) (flags : String)
  | lazyMod (args : Args) (capture : Cap) (flags : String)
  | flagSeg (codes : String)
  | inlineFlag (args : Args) (capture : Cap) (flags : String)
  | raw (entire : Bool) (args : Args) (capture : Cap) (flags : String)
  | orSeg (args : Args) (capture : Cap) (flags : String)
  | captureSeg (args : Args) (capture : Cap) (flags : String)
  | nonCapture (args : Args) (capture : Cap) (flags : String)
  | concat (args : Args) (capture : Cap) (flags : String)
  | conditional (sel : CondSel) (yes : Arg) (noBr : OptArg) (capture : Cap) (flags : String)
  | captured (target : RefTarget) (capture : Cap) (flags : String)

/-- The `args` tuple of a segment. -/
inductive Args where
  | nil
  | cons (hd : Arg) (tl : Args)

/-- One element of an `args` tuple: a plain Python string or a nested
segment. -/
inductive Arg where
  | str (s : String)
  | seg (s : Seg)

/-- The optional `no` branch of a `Conditional`. -/
inductive OptArg where
  | none
  | some (a : Arg)
end

/-! ### Field accessors and per-class constants -/

/-- The stored `capture` field. -/
def Seg.capture : Seg → Cap
  | .oneOf _ c _ => c
  | .noneOf _ c _ => c
  | .look _ _ c _ => c
  | .quant _ _ _ c _ => c
  | .lazyMod _ c _ => c
  | .flagSeg _ => .none
  | .inlineFlag _ c _ => c
  | .raw _ _ c _ => c
  | .orSeg _ c _ => c
  | .captureSeg _ c _ => c
  | .nonCapture _ c _ => c
  | .concat _ c _ => c
  | .conditional _ _ _ c _ => c
  | .captured _ c _ => c

/-- The stored `flags` field (already the combined
enable/`-`disable string). -/
def Seg.flags : Seg → String
  | .oneOf _ _ f => f
  | .noneOf _ _ f => f
  | .look _ _ _ f => f
  | .quant _ _ _ _ f => f
  | .lazyMod _ _ f => f
  | .flagSeg _ => ""
  | .inlineFlag _ _ f => f
  | .raw _ _ _ f => f
  | .orSeg _ _ f => f
  | .captureSeg _ _ f => f
  | .nonCapture _ _ f => f
  | .concat _ _ f => f
  | .conditional _ _ _ _ f => f
  | .captured _ _ f => f

/-- The `NONCAPTURING_WRAPPING` class variable: `True` on `Segment`
itself (inherited by `Or`) and on `NonCapture`, `False` on every other
concrete class. -/
def Seg.ncw : Seg → Bool
  | .orSeg _ _ _ => true
  | .nonCapture _ _ _ => true
  | _ => false

/-- The `args` tuple (empty for the argument-free classes; a `Flag` node
stores its combined code string as its single element, see
`Flag.__init__`). -/
def Seg.argsOf : Seg → Args
  | .oneOf a _ _ => a
  | .noneOf a _ _ => a
  | .look _ a _ _ => a
  | .quant _ _ a _ _ => a
  | .lazyMod a _ _ => a
  | .flagSeg codes => .cons (.str codes) .nil
  | .inlineFlag a _ _ => a
  | .raw _ a _ _ => a
  | .orSeg a _ _ => a
  | .captureSeg a _ _ => a
  | .nonCapture a _ _ => a
  | .concat a _ _ => a
  | .conditional _ _ _ _ _ => .nil
  | .captured _ _ _ => .nil

/-- `isinstance(x, Raw)`. -/
def Seg.isRawTag : Seg → Bool
  | .raw _ _ _ _ => true
  | _ => false

/-- The `entire` flag of a `Raw` node (`false` elsewhere). -/
def Seg.rawEntire : Seg → Bool
  | .raw e _ _ _ => e
  | _ => false

/-- `isinstance(x, Capture)`. -/
def Seg.isCaptureTag : Seg → Bool
  | .captureSeg _ _ _ => true
  | _ => false

/-- `isinstance(x, Captured)`. -/
def Seg.isCapturedTag : Seg → Bool
  | .captured _ _ _ => true
  | _ => false

/-- `isinstance(x, CharClass)`. -/
def Seg.isCharClassTag : Seg → Bool
  | .oneOf _ _ _ => true
  | .noneOf _ _ _ => true
  | _ => false

/-- `isinstance(x, Quantifier)`. -/
def Seg.isQuantTag : Seg → Bool
  | .quant _ _ _ _ _ => true
  | _ => false

/-- `isinstance(x, Flag)`. -/
def Seg.isFlagTag : Seg → Bool
  | .flagSeg _ => true
  | _ => false

/-- Number of elements of an `args` tuple. -/
def Args.length : Args → Nat
  | .nil => 0
  | .cons _ rest => 1 + rest.length

/-- Append of `args` tuples. -/
def Args.append : Args → Args → Args
  | .nil, b => b
  | .cons a rest, b => .cons a (rest.append b)

/-- Whether some element satisfies a predicate (Python `any`). -/
def Args.anyArg (p : Arg → Bool) : Args → Bool
  | .nil => false
  | .cons a rest => p a || Args.anyArg p rest

/-- Whether every element satisfies a predicate (Python `all`). -/
def Args.allArg (p : Arg → Bool) : Args → Bool
  | .nil => true
  | .cons a rest => p a && Args.allArg p rest

/-- Whether an `args` element is a plain string (`isinstance(part, str)`
— equivalently not a `Segment`). -/
def Arg.isStr : Arg → Bool
  | .str _ => true
  | .seg _ => false

/-! ### Compact rendering (`_str_raw` and `__str__`)

`wrapRender` is the body of `Segment.__str__` after `self._str_raw()` has
been computed: the flag wrapper is applied first, then the capture / the
non-capturing wrapper. -/

/-- Translation of `Segment.__str__` given the `_str_raw` result and the
relevant fields. -/
def wrapRender (rawStr : String) (ncw : Bool) (cap : Cap) (fl : String) : String :=
  let a := if fl = "" then rawStr else "(?" ++ fl ++ ":" ++ rawStr ++ ")"
  match cap with
  | .anon => "(" ++ a ++ ")"
  | .named n =>
    if n = "" then (if ncw && fl = "" then "(?:" ++ a ++ ")" else a)
    else "(?P<" ++ n ++ ">" ++ a ++ ")"
  | .none => if ncw && fl = "" then "(?:" ++ a ++ ")" else a

/-- The wrap test of `Quantifier._str_raw` on a nonempty `args` tuple.
On `Args.nil` Python raises `IndexError` (`self.args[0]`); the value
`false` here is a placeholder outside `Seg.crashFree`. -/
def quantWrap : Args → Bool
  | .nil => false
  | .cons a .nil =>
    match a with
    | .str s => 1 < s.length
    | .seg sg =>
      (sg.isRawTag && !sg.rawEntire && !sg.capture.truthy) ||
      (!(sg.isRawTag || sg.isCaptureTag || sg.isCapturedTag || sg.isCharClassTag) &&
        !sg.ncw && !sg.capture.truthy)
  | .cons _ (.cons _ _) => true

mutual
/-- Translation of the `_str_raw` methods of every class. -/
def Seg.strRaw : Seg → String
  | .oneOf args _ _ => "[" ++ args.plainJoin ++ "]"
  | .noneOf args _ _ => "[^" ++ args.plainJoin ++ "]"
  | .look k args _ _ => "(" ++ k.pfx ++ args.escJoin ++ ")"
  | .quant k lz args _ _ =>
    let q := k.symbol ++ (if lz then "?" else "")
    if quantWrap args then "(?:" ++ args.escJoin ++ ")" ++ q else args.escJoin ++ q
  | .lazyMod args _ _ => args.escJoin ++ "?"
  | .flagSeg codes => "(?" ++ reEscape codes ++ ")"
  | .inlineFlag args _ _ => args.escJoin
  | .raw _ args _ _ => args.plainJoin
  | .orSeg args _ _ => args.orJoin
  | .captureSeg args _ _ => args.escJoin
  | .nonCapture args _ _ => args.escJoin
  | .concat args _ _ => args.escJoin
  | .conditional sel yes noBr _ _ =>
    "(?(" ++ sel.target.interp ++ ")" ++ yes.pyStr ++
      (match noBr with
       | .none => ""
       | .some (.str s) => if s = "" then "" else "|" ++ s
       | .some (.seg sg) => "|" ++ wrapRender sg.strRaw sg.ncw sg.capture sg.flags) ++ ")"
  | .captured t _ _ =>
    match t with
    | .byName s => "(?P=" ++ s ++ ")"
    | .byNum n => "\\" ++ toString n

/-- Python `str(part)`: the string itself for a plain string,
`Segment.__str__` for a nested segment. -/
def Arg.pyStr : Arg → String
  | .str s => s
  | .seg sg => wrapRender sg.strRaw sg.ncw sg.capture sg.flags

/-- `Segment._str_raw`: concatenation with `re.escape` applied to the
plain-string elements. -/
def Args.escJoin : Args → String
  | .nil => ""
  | .cons (.str s) rest => reEscape s ++ rest.escJoin
  | .cons (.seg sg) rest => wrapRender sg.strRaw sg.ncw sg.capture sg.flags ++ rest.escJoin

/-- `CharClass._str_raw` / `Raw._str_raw`: concatenation of `str(part)`
with no escaping. -/
def Args.plainJoin : Args → String
  | .nil => ""
  | .cons a rest => a.pyStr ++ rest.plainJoin

/-- `Or._str_raw`: `"|".join(str(part) for part in args)` — note no
escaping of plain-string elements. -/
def Args.orJoin : Args → String
  | .nil => ""
  | .cons a .nil => a.pyStr
  | .cons a (.cons b rest) => a.pyStr ++ "|" ++ Args.orJoin (.cons b rest)
end

/-- Translation of `Segment.__str__` (the compact rendering). -/
def Seg.render (s : Seg) : String :=
  wrapRender s.strRaw s.ncw s.capture s.flags

/-! ### Sanity checks against the repository's test suite -/

/-- Shorthand: a one-element `args` tuple holding a plain string. -/
def oneStr (s : String) : Args := .cons (.str s) .nil

example : Seg.render (.quant .zeroOrMore false (oneStr "x") .none "") = "x*" := by decide
example : Seg.render (.quant .oneOrMore false (oneStr "x") .none "") = "x+" := by decide
example : Seg.render (.orSeg (.cons (.str "ab") (.cons (.str "ba") .nil)) .anon "") = "(ab|ba)" := by
  decide
example : Seg.render (.captureSeg (oneStr "x") (.named "a") "") = "(?P<a>x)" := by decide
example : Seg.render (.captureSeg (oneStr "") .anon "") = "()" := by decide
example : Seg.render (.raw true (oneStr "\\d") .none "") = "\\d" := by decide
example : Seg.render (.orSeg (.cons (.str "a") (.cons (.str "b") .nil)) .none "") = "(?:a|b)" := by
  decide
example :
    Seg.render (.quant .zeroOrMore false
      (.cons (.seg (.quant .maybe false (oneStr "a") .none "")) .nil) .none "") = "(?:a?)*" := by
  decide
example :
    Seg.render (.quant (.repeatMN 2 .none) true
      (.cons (.seg (.quant .maybe false (oneStr "a") .none "")) .nil) .none "")
      = "(?:a?)\x7b2,\x7d?" := by decide
example :
    Seg.render (.conditional (.bare (.byNum 1)) (.str "\\)") .none .none "") = "(?(1)\\))" := by
  decide
example : Seg.render (.captured (.byName "a") .none "") = "(?P=a)" := by decide
example : Seg.render (.captured (.byNum 1) .none "") = "\\1" := by decide
example : Seg.render (.nonCapture (oneStr "abc") .none "") = "(?:abc)" := by decide
example :
    Seg.render (.look .ahead (.cons (.seg (.raw false (oneStr "a|ab") .none "")) .nil) .none "")
      = "(?=a|ab)" := by decide
example : Seg.render (.flagSeg "i") = "(?i)" := by decide

/-! ### Pretty rendering (`_pretty_raw` and `Segment.pretty`) -/

/-- Python `"|".join`. -/
def joinBar : List String → String
  | [] => ""
  | [l] => l
  | l :: rest => l ++ "|" ++ joinBar rest

/-- Python `"\n|".join`. -/
def joinBarNl : List String → String
  | [] => ""
  | [l] => l
  | l :: rest => l ++ "\n|" ++ joinBarNl rest

/-- The opening token contributed by the `capture` field in
`Segment.pretty` (Python lines 186-190). -/
def capStartStr (cap : Cap) : String :=
  match cap with
  | .anon => "("
  | .named n => if n = "" then "" else "(?P<" ++ n ++ ">"
  | .none => ""

/-- The `start`/`end` pair computed by `Segment.pretty` in its wrapped
branches (Python lines 185-202). -/
def prettyStartStop (ncw : Bool) (cap : Cap) (fl : String) (ind : String)
    (level : Nat) : String × String :=
  let cs : String := capStartStr cap
  let ce : String := if cap.truthy then ")" else ""
  let fs : String := if fl = "" then "" else "(?" ++ fl ++ ":"
  let fe : String := if fl = "" then "" else ")"
  if cap.truthy then (srep ind level ++ cs ++ fs, srep ind level ++ fe ++ ce)
  else if ncw && fl = "" then (srep ind level ++ "(?:", srep ind level ++ ")")
  else (srep ind level ++ fs, srep ind level ++ fe)

/-- Translation of `Segment.pretty` given the `_pretty_raw` result and the
relevant fields. -/
def prettyWrap (arg : String) (ncw : Bool) (cap : Cap) (fl : String) (ind : String)
    (level : Nat) : String :=
  if !cap.truthy && !ncw && fl = "" then
    joinNl ((splitlinesPy arg).map (fun l => srep ind level ++ l))
  else
    let se := prettyStartStop ncw cap fl ind level
    if !hasNl arg then se.1 ++ arg ++ se.2
    else joinNl (se.1 :: ((splitlinesPy arg).map (fun l => srep ind (level + 1) ++ l)) ++ [se.2])

mutual
/-- Translation of the `_pretty_raw` methods of every class (the nested
recursive calls `arg.pretty(indent, 0)` appear inlined through
`prettyWrap`, see `Seg.pretty` below). -/
def Seg.prettyRaw : Seg → String → String
  | .oneOf args cap fl, _ => Seg.strRaw (.oneOf args cap fl)
  | .noneOf args cap fl, _ => Seg.strRaw (.noneOf args cap fl)
  | .look k args _ _, ind =>
    let p := joinNl (args.basePrettyList ind)
    if !hasNl p then "(" ++ k.pfx ++ p ++ ")"
    else joinNl (("(" ++ k.pfx) :: ((splitlinesPy p).map (fun l => ind ++ l)) ++ [")"])
  | .quant k lz args cap fl, _ => Seg.strRaw (.quant k lz args cap fl)
  | .lazyMod args _ _, ind => joinNl (args.basePrettyList ind) ++ "?"
  | .flagSeg codes, _ => Seg.strRaw (.flagSeg codes)
  | .inlineFlag args _ _, ind => joinNl (args.basePrettyList ind)
  | .raw e args cap fl, _ => Seg.strRaw (.raw e args cap fl)
  | .orSeg args _ _, ind =>
    let parts := args.orPrettyList ind
    if parts.any hasNl then joinBarNl parts else joinBar parts
  | .captureSeg args _ _, ind => joinNl (args.basePrettyList ind)
  | .nonCapture args _ _, ind => joinNl (args.basePrettyList ind)
  | .concat args _ _, ind => joinNl (args.basePrettyList ind)
  | .conditional sel yes noBr _ _, ind =>
    let yesP : String :=
      match yes with
      | .str s => s
      | .seg sg => prettyWrap (sg.prettyRaw ind) sg.ncw sg.capture sg.flags ind 0
    let noP : String :=
      match noBr with
      | .none => ""
      | .some (.str s) => if s = "" then "" else "|" ++ s
      | .some (.seg sg) => "|" ++ prettyWrap (sg.prettyRaw ind) sg.ncw sg.capture sg.flags ind 0
    if hasNl yesP || hasNl noP then
      "(?(" ++ sel.target.interp ++ ")\n" ++
        joinNl ((splitAllNl yesP).map (fun l => ind ++ l)) ++ "\n" ++
        joinNl ((splitAllNl noP).map (fun l => ind ++ l)) ++ "\n)"
    else "(?(" ++ sel.target.interp ++ ")" ++ yesP ++ noP ++ ")"
  | .captured t cap fl, _ => Seg.strRaw (.captured t cap fl)

/-- The list built by `Segment._pretty_raw` before `"\n".join`: nested
segments pretty-printed at level 0, plain strings escaped. -/
def Args.basePrettyList : Args → String → List String
  | .nil, _ => []
  | .cons (.str s) rest, ind => reEscape s :: rest.basePrettyList ind
  | .cons (.seg sg) rest, ind =>
    prettyWrap (sg.prettyRaw ind) sg.ncw sg.capture sg.flags ind 0 :: rest.basePrettyList ind

/-- The `out` list of `Or._pretty_raw`: nested segments pretty-printed at
level 0, plain strings taken verbatim (`str(arg)`). -/
def Args.orPrettyList : Args → String → List String
  | .nil, _ => []
  | .cons (.str s) rest, ind => s :: rest.orPrettyList ind
  | .cons (.seg sg) rest, ind =>
    prettyWrap (sg.prettyRaw ind) sg.ncw sg.capture sg.flags ind 0 :: rest.orPrettyList ind
end

/-- Translation of `Segment.pretty`. -/
def Seg.pretty (s : Seg) (ind : String) (level : Nat) : String :=
  prettyWrap (s.prettyRaw ind) s.ncw s.capture s.flags ind level

/-! ### Render-time totality and whitespace-free content -/

/-- Characters treated as a line break by Python's `str.splitlines`. -/
def pyLineBreakChar (c : Char) : Bool :=
  c = '\n' || c = '\r' || c = '\x0b' || c = '\x0c' || c = '\x1c' || c = '\x1d' ||
  c = '\x1e' || c = '\x85' || c = '\u2028' || c = '\u2029'

/-- A character that is neither a space, a tab, nor any Python line break
character. -/
def cleanChar (c : Char) : Bool :=
  !(c = ' ' || c = '\t' || pyLineBreakChar c)

/-- A string all of whose characters are clean. -/
def strNoWS (s : String) : Bool := s.data.all cleanChar

/-- The stored capture name (if any) is whitespace-free. -/
def Cap.noWS : Cap → Bool
  | .named n => strNoWS n
  | _ => true

/-- The stored reference name (if any) is whitespace-free. -/
def RefTarget.noWS : RefTarget → Bool
  | .byName s => strNoWS s
  | .byNum _ => true

mutual
/-- Rendering this tree raises no exception in Python: every quantifier
node has at least one child (`Quantifier._str_raw` evaluates
`self.args[0]`). -/
def Seg.crashFree : Seg → Bool
  | .oneOf args _ _ => args.crashFree
  | .noneOf args _ _ => args.crashFree
  | .look _ args _ _ => args.crashFree
  | .quant _ _ args _ _ => (match args with | .nil => false | .cons _ _ => true) && args.crashFree
  | .lazyMod args _ _ => args.crashFree
  | .flagSeg _ => true
  | .inlineFlag args _ _ => args.crashFree
  | .raw _ args _ _ => args.crashFree
  | .orSeg args _ _ => args.crashFree
  | .captureSeg args _ _ => args.crashFree
  | .nonCapture args _ _ => args.crashFree
  | .concat args _ _ => args.crashFree
  | .conditional _ yes noBr _ _ =>
    yes.crashFree && (match noBr with | .none => true | .some a => a.crashFree)
  | .captured _ _ _ => true

/-- Pointwise `crashFree` on an `args` tuple. -/
def Args.crashFree : Args → Bool
  | .nil => true
  | .cons a rest => a.crashFree && rest.crashFree

/-- `crashFree` of one tuple element. -/
def Arg.crashFree : Arg → Bool
  | .str _ => true
  | .seg sg => sg.crashFree
end

mutual
/-- Every string stored anywhere in the tree (literal children, raw text,
flags, capture names, reference names, conditional branches) is free of
spaces, tabs and Python line break characters. -/
def Seg.noWS : Seg → Bool
  | .oneOf args cap fl => args.noWS && cap.noWS && strNoWS fl
  | .noneOf args cap fl => args.noWS && cap.noWS && strNoWS fl
  | .look _ args cap fl => args.noWS && cap.noWS && strNoWS fl
  | .quant _ _ args cap fl => args.noWS && cap.noWS && strNoWS fl
  | .lazyMod args cap fl => args.noWS && cap.noWS && strNoWS fl
  | .flagSeg codes => strNoWS codes
  | .inlineFlag args cap fl => args.noWS && cap.noWS && strNoWS fl
  | .raw _ args cap fl => args.noWS && cap.noWS && strNoWS fl
  | .orSeg args cap fl => args.noWS && cap.noWS && strNoWS fl
  | .captureSeg args cap fl => args.noWS && cap.noWS && strNoWS fl
  | .nonCapture args cap fl => args.noWS && cap.noWS && strNoWS fl
  | .concat args cap fl => args.noWS && cap.noWS && strNoWS fl
  | .conditional sel yes noBr cap fl =>
    sel.target.noWS && yes.noWS && noBr.noWS && cap.noWS && strNoWS fl
  | .captured t cap fl => t.noWS && cap.noWS && strNoWS fl

/-- Pointwise `noWS` on an `args` tuple. -/
def Args.noWS : Args → Bool
  | .nil => true
  | .cons a rest => a.noWS && rest.noWS

/-- `noWS` of one tuple element. -/
def Arg.noWS : Arg → Bool
  | .str s => strNoWS s
  | .seg sg => sg.noWS

/-- `noWS` of an optional branch. -/
def OptArg.noWS : OptArg → Bool
  | .none => true
  | .some a => a.noWS
end

/-! ### Constructors with validation -/

/-- The error kinds raised (as `ValueError`) at construction time. -/
inductive Err where
  | invalidCaptureName
  | invalidIdentifier
  | invalidFlag
  | conflictingFlags
  | invalidBound
  | arityError
  | notAQuantifier
  | nonStringOperand
  | flagNotFirst
deriving DecidableEq, Repr

/-- Boolean success test on an `Except` value. -/
def isOkE {e a : Type} : Except e a → Bool
  | .ok _ => true
  | .error _ => false

/-- The string branch of `_flags_to_str` (`None` yields `""`): every
character must be one of `aiLmsux`. -/
def flagsToStr : Option String → Except Err String
  | Option.none => .ok ""
  | Option.some s => if s.data.all flagCharOk then .ok s else .error .invalidFlag

/-- The capture-name validation of `Segment.__init__`. -/
def capNameOk (capture : Cap) : Except Err Unit :=
  match capture with
  | .named n => if pyIsIdentifier n then .ok () else .error .invalidCaptureName
  | _ => .ok ()

/-- Translation of `Segment.__init__`: validate the capture name, convert
and validate flags and deflags, reject conflicts, and produce the stored
`(capture, flags)` pair. -/
def segInit (capture : Cap) (flags deflags : Option String) : Except Err (Cap × String) :=
  match capNameOk capture with
  | .error e => .error e
  | .ok _ =>
    match flagsToStr flags with
    | .error e => .error e
    | .ok f =>
      match flagsToStr deflags with
      | .error e => .error e
      | .ok d =>
        if f.data.any (fun c => d.data.contains c) then .error .conflictingFlags
        else .ok (capture, f ++ (if d = "" then "" else "-" ++ d))

/-- Constructor of the symbol quantifiers (`ZeroOrMore`, `OneOrMore`,
`Maybe`): `Quantifier.__init__` adds no validation of its own
(in particular no arity check). -/
def mkQuant (k : QuantKind) (args : Args) (lz : Bool) (capture : Cap)
    (flags deflags : Option String) : Except Err Seg :=
  match segInit capture flags deflags with
  | .error e => .error e
  | .ok (cap, fl) => .ok (.quant k lz args cap fl)

/-- Constructor of `Repeat`: after `Segment.__init__`, fails when `m < 0`
or when `n` is given and `n < m`. -/
def mkRepeat (args : Args) (m : Int) (n : Option Int) (lz : Bool) (capture : Cap)
    (flags deflags : Option String) : Except Err Seg :=
  match segInit capture flags deflags with
  | .error e => .error e
  | .ok (cap, fl) =>
    if m < 0 then .error .invalidBound
    else if (match n with | Option.some k => decide (k < m) | Option.none => false) then
      .error .invalidBound
    else .ok (.quant (.repeatMN m n) lz args cap fl)

/-- Constructor of `RepeatExact`: after `Segment.__init__`, fails when
`m <= 0`. -/
def mkRepeatExact (args : Args) (m : Int) (lz : Bool) (capture : Cap)
    (flags deflags : Option String) : Except Err Seg :=
  match segInit capture flags deflags with
  | .error e => .error e
  | .ok (cap, fl) =>
    if m ≤ 0 then .error .invalidBound
    else .ok (.quant (.repeatExact m) lz args cap fl)

/-- Consume a maximal run of decimal digits. -/
def dropDigits : List Char → List Char
  | [] => []
  | c :: rest => if c.isDigit then dropDigits rest else c :: rest

/-- Model of `re.match(r"\{\d+(?:,\d+)?\}", s)` viewed as a Boolean: the
string must START with `\x7b`digits`\x7d` or `\x7b`digits`,`digits`\x7d`
(`re.match` anchors at the start only, so trailing characters are
allowed, and `\x7bm,\x7d` with no second number does NOT match). -/
def boundTextMatch (s : String) : Bool :=
  match s.data with
  | '\x7b' :: rest =>
    (match rest with
     | [] => false
     | d :: _ =>
       if d.isDigit then
         match dropDigits rest with
         | '\x7d' :: _ => true
         | ',' :: r2 =>
           (match r2 with
            | [] => false
            | e :: _ =>
              if e.isDigit then
                (match dropDigits r2 with
                 | '\x7d' :: _ => true
                 | _ => false)
              else false)
         | _ => false
       else false)
  | _ => false

/-- The test applied by `Lazy.__init__` to a plain-string operand: its
last character is `+`, `*` or `?`, or it starts with bounded-repeat text.
Python evaluates `args[0][-1]` first, so the empty string raises
`IndexError`; it is modelled as a plain failure. -/
def lazyTextOk (s : String) : Bool :=
  match s.data.getLast? with
  | Option.none => false
  | Option.some c => (c = '+' || c = '*' || c = '?') || boundTextMatch s

/-- The operand test of `Lazy.__init__`: a `Quantifier` node or ANY `Raw`
node is accepted; any other node is rejected; a plain string must pass
`lazyTextOk`. -/
def lazyArgOk : Arg → Bool
  | .str s => lazyTextOk s
  | .seg sg => sg.isQuantTag || sg.isRawTag

/-- Constructor of `Lazy`: exactly one operand, which must satisfy
`lazyArgOk`; then `Segment.__init__`. -/
def mkLazy (args : Args) (capture : Cap) (flags deflags : Option String) : Except Err Seg :=
  match args with
  | .cons a .nil =>
    if !lazyArgOk a then .error .notAQuantifier
    else
      match segInit capture flags deflags with
      | .error e => .error e
      | .ok (cap, fl) => .ok (.lazyMod (.cons a .nil) cap fl)
  | _ => .error .arityError

/-- Constructor of `Raw`: every positional argument must be a plain
string; then `Segment.__init__`. -/
def mkRaw (args : Args) (entire : Bool) (capture : Cap)
    (flags deflags : Option String) : Except Err Seg :=
  if !(args.allArg Arg.isStr) then .error .nonStringOperand
  else
    match segInit capture flags deflags with
    | .error e => .error e
    | .ok (cap, fl) => .ok (.raw entire args cap fl)

/-- Constructor of `Captured`: validates the capture name and, for a
STRING target only, `str.isidentifier`; an `int` target is stored with no
validation at all. -/
def mkCaptured (t : RefTarget) (capture : Cap)
    (flags deflags : Option String) : Except Err Seg :=
  match capNameOk capture with
  | .error e => .error e
  | .ok _ =>
    match t with
    | .byName s =>
      if !pyIsIdentifier s then .error .invalidIdentifier
      else
        match segInit capture flags deflags with
        | .error e => .error e
        | .ok (cap, fl) => .ok (.captured t cap fl)
    | .byNum _ =>
      match segInit capture flags deflags with
      | .error e => .error e
      | .ok (cap, fl) => .ok (.captured t cap fl)

/-- Apply `re.escape` to a plain-string branch (`Conditional.__init__`
stores `re.escape(yes)` / `re.escape(no)`). -/
def escapeArg : Arg → Arg
  | .str s => .str (reEscape s)
  | .seg sg => .seg sg

/-- Escape an optional branch. -/
def escapeOptArg : OptArg → OptArg
  | .none => .none
  | .some a => .some (escapeArg a)

/-- Constructor of `Conditional`: validates the capture name and, for a
bare STRING selector only, `str.isidentifier`; a `Captured` selector and
an `int` selector are stored unvalidated; the string branches are escaped
at construction. -/
def mkConditional (sel : CondSel) (yes : Arg) (noBr : OptArg) (capture : Cap)
    (flags deflags : Option String) : Except Err Seg :=
  match capNameOk capture with
  | .error e => .error e
  | .ok _ =>
    match sel with
    | .bare (.byName s) =>
      if !pyIsIdentifier s then .error .invalidIdentifier
      else
        match segInit capture flags deflags with
        | .error e => .error e
        | .ok (cap, fl) => .ok (.conditional sel (escapeArg yes) (escapeOptArg noBr) cap fl)
    | _ =>
      match segInit capture flags deflags with
      | .error e => .error e
      | .ok (cap, fl) => .ok (.conditional sel (escapeArg yes) (escapeOptArg noBr) cap fl)

/-- Whether a top-level segment passed to `Regexr` is a `Flag` node. -/
def Arg.isFlagArg : Arg → Bool
  | .seg sg => sg.isFlagTag
  | .str _ => false

/-- Translation of `Regexr.__new__`: if any segment is a `Flag` node and
the first one is not, fail; otherwise concatenate `re.escape(part)` for
plain strings and `str(part)` for segments. -/
def mkRegexr (segs : Args) : Except Err String :=
  match segs with
  | .nil => .ok (Args.escJoin .nil)
  | .cons s0 rest =>
    if Args.anyArg Arg.isFlagArg (.cons s0 rest) && !s0.isFlagArg then .error .flagNotFirst
    else .ok (Args.escJoin (.cons s0 rest))

/-! ### Sanity checks of the pretty renderer against the test suite -/

example : Seg.pretty (.captureSeg (oneStr "a") .anon "") "  " 0 = "(a)" := by decide
example :
    Seg.pretty (.orSeg (.cons (.str "a") (.cons (.str "b") .nil)) .none "") "  " 0
      = "(?:a|b)" := by decide
example :
    Seg.pretty (.orSeg (.cons (.seg (.captureSeg (.cons (.str "a") (.cons (.str "b") .nil)) .anon ""))
      (.cons (.str "c") (.cons (.str "d") .nil))) .none "") "  " 0
      = "(?:\n  (\n    a\n    b\n  )\n  |c\n  |d\n)" := by decide
example : Seg.pretty (.quant .maybe false (oneStr "a") .none "") "  " 0 = "a?" := by decide
example :
    Seg.pretty (.lazyMod (.cons (.seg (.quant .maybe false (oneStr "a") .none "")) .nil) .none "")
      "  " 0 = "a??" := by decide
example :
    Seg.pretty (.captureSeg (.cons (.str "a")
        (.cons (.seg (.captureSeg (.cons (.str "b")
          (.cons (.seg (.captureSeg (oneStr "c") (.named "d") "")) .nil)) .anon "")) .nil))
      (.named "a") "") "  " 0
      = "(?P<a>\n  a\n  (\n    b\n    (?P<d>c)\n  )\n)" := by decide
example : Seg.pretty (.oneOf (oneStr "a") .none "") "  " 0 = "[a]" := by decide
example :
    Seg.pretty (.conditional (.fromCaptured (.byName "a")) (.str "b") (.some (.str "c")) .none "")
      "  " 0 = "(?(a)b|c)" := by decide
example :
    Seg.pretty (.conditional (.fromCaptured (.byName "a")) (.str "b")
      (.some (.seg (.captureSeg (.cons (.str "c") (.cons (.str "d") .nil)) .anon ""))) .none "")
      "  " 0 = "(?(a)\n  b\n  |(\n    c\n    d\n  )\n)" := by decide
example :
    Seg.pretty (.look .ahead (.cons (.str "a") (.cons (.str "b") .nil)) .none "") "  " 0
      = "(?=\n  a\n  b\n)" := by decide
example : Seg.pretty (.look .ahead (oneStr "a") .none "") "  " 0 = "(?=a)" := by decide
example : Seg.pretty (.raw false (oneStr "\\d") .none "") "  " 0 = "\\d" := by decide
example :
    Seg.pretty (.captureSeg (.cons (.seg (.raw true (oneStr "\\d+") .none ""))  .nil)
      (.named "a") "") "  " 0 = "(?P<a>\\d+)" := by decide

/-! ### Helper lemmas for the claim theorems -/

/-- Variants whose `_str_raw` inserts plain-string children through
`re.escape` (i.e. the ones that reach the inherited `Segment._str_raw`):
`Look`, `Quantifier`, `Lazy`, `InlineFlag`, `Flag` (its `_str_raw` wraps
`super()._str_raw()`, which escapes its single stored code string),
`Capture`, `NonCapture`, `Concat`.  Excluded: `Raw` and `CharClass`
(verbatim, by design), `Or` (verbatim via `str(part)`, see claim C1),
and the argument-free variants. -/
def Seg.usesEscapedJoin : Seg → Bool
  | .look _ _ _ _ => true
  | .quant _ _ _ _ _ => true
  | .lazyMod _ _ _ => true
  | .flagSeg _ => true
  | .inlineFlag _ _ _ => true
  | .captureSeg _ _ _ => true
  | .nonCapture _ _ _ => true
  | .concat _ _ _ => true
  | _ => false

theorem escJoin_append : ∀ (a b : Args), (a.append b).escJoin = a.escJoin ++ b.escJoin
  | .nil, b => by simp [Args.append, Args.escJoin]
  | .cons (.str s) rest, b => by
    simp [Args.append, Args.escJoin, escJoin_append rest b, String.append_assoc]
  | .cons (.seg sg) rest, b => by
    simp [Args.append, Args.escJoin, escJoin_append rest b, String.append_assoc]

theorem escJoin_extract (pre post : Args) (t : String) :
    (pre.append (.cons (.str t) post)).escJoin
      = pre.escJoin ++ (reEscape t ++ post.escJoin) := by
  rw [escJoin_append]; rfl

/-! ### Claim theorems -/

/-- C1, counterexample: `Or._str_raw` joins its parts with
`str(part)`, NOT `re.escape(part)`; the Literal child `"."` of an
alternation contributes `"."`, which differs from its dialect-escaped
form `"\\."`.  (`str(Or("."))` is `"(?:.)"`, not `"(?:\\.)"`.) -/
theorem c1_or_not_escaped :
    Seg.strRaw (.orSeg (oneStr ".") .none "") = "."
    ∧ reEscape "." = "\\."
    ∧ Seg.render (.orSeg (oneStr ".") .none "") = "(?:.)" := by
  refine ⟨by decide, by decide, by decide⟩

/-- C1 (amended): for every node variant that reaches the inherited
`Segment._str_raw` — lookaround, the quantifier family, the lazy
modifier, inline-flag groups, standalone flag nodes (whose `_str_raw`
wraps `super()._str_raw()` around their single stored code string),
capturing groups, non-capturing groups and concatenation, but NOT
alternation (`Or._str_raw` inserts plain-string children verbatim via
`str(part)`), and not raw nodes or character classes (verbatim by
design) — every plain-string child is escaped for regex metacharacters
before insertion into the compact rendering: the child `t` contributes
exactly `reEscape t`. -/
theorem c1_escaped_contribution (s : Seg) (h : s.usesEscapedJoin = true)
    (pre post : Args) (t : String)
    (ha : s.argsOf = pre.append (.cons (.str t) post)) :
    ∃ u v, s.strRaw = u ++ reEscape t ++ v := by
  cases s with
  | look k args cap fl =>
    refine ⟨"(" ++ k.pfx ++ pre.escJoin, post.escJoin ++ ")", ?_⟩
    simp only [Seg.argsOf] at ha
    simp [Seg.strRaw, ha, escJoin_extract, String.append_assoc]
  | quant k lz args cap fl =>
    simp only [Seg.argsOf] at ha
    subst ha
    by_cases hw : quantWrap (pre.append (.cons (.str t) post)) = true
    · refine ⟨"(?:" ++ pre.escJoin, post.escJoin ++ (")" ++ (k.symbol ++ (if lz then "?" else ""))), ?_⟩
      simp [Seg.strRaw, hw, escJoin_extract, String.append_assoc]
    · refine ⟨pre.escJoin, post.escJoin ++ (k.symbol ++ (if lz then "?" else "")), ?_⟩
      simp [Seg.strRaw, hw, escJoin_extract, String.append_assoc]
  | lazyMod args cap fl =>
    refine ⟨pre.escJoin, post.escJoin ++ "?", ?_⟩
    simp only [Seg.argsOf] at ha
    simp [Seg.strRaw, ha, escJoin_extract, String.append_assoc]
  | inlineFlag args cap fl =>
    refine ⟨pre.escJoin, post.escJoin, ?_⟩
    simp only [Seg.argsOf] at ha
    simp [Seg.strRaw, ha, escJoin_extract, String.append_assoc]
  | captureSeg args cap fl =>
    refine ⟨pre.escJoin, post.escJoin, ?_⟩
    simp only [Seg.argsOf] at ha
    simp [Seg.strRaw, ha, escJoin_extract, String.append_assoc]
  | nonCapture args cap fl =>
    refine ⟨pre.escJoin, post.escJoin, ?_⟩
    simp only [Seg.argsOf] at ha
    simp [Seg.strRaw, ha, escJoin_extract, String.append_assoc]
  | concat args cap fl =>
    refine ⟨pre.escJoin, post.escJoin, ?_⟩
    simp only [Seg.argsOf] at ha
    simp [Seg.strRaw, ha, escJoin_extract, String.append_assoc]
  | flagSeg codes =>
    cases pre with
    | nil =>
      simp only [Seg.argsOf, Args.append] at ha
      injection ha with h1 h2
      injection h1 with h3
      subst h3
      exact ⟨"(?", ")", rfl⟩
    | cons a rest =>
      simp only [Seg.argsOf, Args.append] at ha
      injection ha with h1 h2
      cases rest with
      | nil => exact Args.noConfusion h2
      | cons b rest2 => exact Args.noConfusion h2
  | oneOf args cap fl => simp [Seg.usesEscapedJoin] at h
  | noneOf args cap fl => simp [Seg.usesEscapedJoin] at h
  | raw e args cap fl => simp [Seg.usesEscapedJoin] at h
  | orSeg args cap fl => simp [Seg.usesEscapedJoin] at h
  | conditional sel yes noBr cap fl => simp [Seg.usesEscapedJoin] at h
  | captured t2 cap fl => simp [Seg.usesEscapedJoin] at h

/-- Witness for `c1_escaped_contribution`: the concatenation node
`Concat(".")` contributes `"\\."` for its literal child `"."`, and the
flag node `Flag("i")` routes its stored code string through
`re.escape` as well. -/
theorem c1_escaped_contribution_witness :
    (Seg.usesEscapedJoin (.concat (oneStr ".") .none "") = true
    ∧ ∃ u v, Seg.strRaw (.concat (oneStr ".") .none "") = u ++ reEscape "." ++ v)
    ∧ (Seg.usesEscapedJoin (.flagSeg "i") = true
    ∧ ∃ u v, Seg.strRaw (.flagSeg "i") = u ++ reEscape "i" ++ v) :=
  ⟨⟨by decide,
    c1_escaped_contribution (.concat (oneStr ".") .none "") (by decide) .nil .nil "."
      (by rfl)⟩,
   ⟨by decide,
    c1_escaped_contribution (.flagSeg "i") (by decide) .nil .nil "i" (by rfl)⟩⟩

/-- C2: a quantifier node (any of the five kinds, lazy or not, with any
capture/flag fields) whose single child is a plain-string literal of
length greater than one wraps the operand in a non-capturing group before
applying the quantifier symbol. -/
theorem c2_multichar_literal_wrapped (k : QuantKind) (lz : Bool) (cap : Cap) (fl : String)
    (t : String) (h : 1 < t.length) :
    Seg.strRaw (.quant k lz (oneStr t) cap fl)
      = "(?:" ++ reEscape t ++ ")" ++ (k.symbol ++ (if lz then "?" else "")) := by
  have hw : quantWrap (Args.cons (Arg.str t) Args.nil) = true := by
    simp [quantWrap, h]
  simp [Seg.strRaw, oneStr, hw, Args.escJoin, String.append_assoc]

/-- Witness for `c2_multichar_literal_wrapped`: `ZeroOrMore("ab")`
renders `(?:ab)*`, not `ab*`. -/
theorem c2_multichar_literal_wrapped_witness :
    1 < ("ab" : String).length
    ∧ Seg.strRaw (.quant .zeroOrMore false (oneStr "ab") .none "") = "(?:ab)*" :=
  ⟨by decide,
   (c2_multichar_literal_wrapped .zeroOrMore false .none "" "ab" (by decide)).trans (by decide)⟩

/-- C4: `ZeroOrMore()` (a quantifier with zero children) is accepted at
construction time — `Quantifier.__init__` performs no arity check — but
rendering it evaluates `self.args[0]` and raises `IndexError`, so
rendering a successfully constructed tree CAN fail, contradicting the
fail-fast specification. -/
theorem c4_empty_quantifier_crashes :
    isOkE (mkQuant .zeroOrMore .nil false .none none none) = true
    ∧ Seg.crashFree (.quant .zeroOrMore false .nil .none "") = false := by
  refine ⟨by decide, by decide⟩

/-- C5, counterexample: `ZeroOrMore(LookAhead("a"))` renders
`(?:(?=a))*`, not `(?=a)*`: `Look` has `NONCAPTURING_WRAPPING = False`
and is not in the quantifier's exemption list `(Raw, Capture, Captured,
CharClass)`, so a capture-less lookaround operand DOES receive an extra
non-capturing wrapper. -/
theorem c5_look_operand_gets_wrapped :
    Seg.render (.quant .zeroOrMore false
        (.cons (.seg (.look .ahead (oneStr "a") .none "")) .nil) .none "") = "(?:(?=a))*"
    ∧ ("(?:(?=a))*" : String) ≠ "(?=a)*" := by
  refine ⟨by decide, by decide⟩

/-- C5 (amended): for every quantifier kind and every lookaround sole
child with no capture and no flags, the compact rendering wraps the
lookaround's parenthesised form in an additional non-capturing group and
then applies the quantifier symbol: `(?:<look>)<sym><lazy>`. -/
theorem c5_look_operand_wrapped (q : QuantKind) (lz : Bool) (lk : LookKind) (largs : Args) :
    Seg.render (.quant q lz (.cons (.seg (.look lk largs .none "")) .nil) .none "")
      = "(?:" ++ Seg.render (.look lk largs .none "") ++ ")"
          ++ (q.symbol ++ (if lz then "?" else "")) := by
  have hw : quantWrap (.cons (.seg (.look lk largs .none "")) .nil) = true := by
    simp [quantWrap, Seg.isRawTag, Seg.isCaptureTag, Seg.isCapturedTag, Seg.isCharClassTag,
      Seg.ncw, Seg.capture, Cap.truthy]
  simp [Seg.render, wrapRender, Seg.strRaw, hw, Args.escJoin, Seg.ncw, Seg.capture, Seg.flags]

/-- C6: a node with `capture = None` and a non-empty flag scope renders
as the single inline-flag-scoped group `(?<codes>:<body>)`: no additional
`(?:...)` wrapper is added even when the variant's
`NONCAPTURING_WRAPPING` is `True` (alternation, non-capturing group). -/
theorem c6_flag_wrapper_is_outer_unit (s : Seg) (_hn : s.ncw = true) (hc : s.capture = .none)
    (hf : s.flags ≠ "") :
    s.render = "(?" ++ s.flags ++ ":" ++ s.strRaw ++ ")" := by
  unfold Seg.render wrapRender
  rw [hc]
  simp [hf]

/-- Witness for `c6_flag_wrapper_is_outer_unit`: `Or("a", "b",
flags="i")` renders `(?i:a|b)` with no extra non-capturing wrapper. -/
theorem c6_flag_wrapper_is_outer_unit_witness :
    Seg.ncw (.orSeg (.cons (.str "a") (.cons (.str "b") .nil)) .none "i") = true
    ∧ Seg.capture (.orSeg (.cons (.str "a") (.cons (.str "b") .nil)) .none "i") = .none
    ∧ Seg.flags (.orSeg (.cons (.str "a") (.cons (.str "b") .nil)) .none "i") ≠ ""
    ∧ Seg.render (.orSeg (.cons (.str "a") (.cons (.str "b") .nil)) .none "i") = "(?i:a|b)" :=
  ⟨by decide, by decide, by decide,
   (c6_flag_wrapper_is_outer_unit (.orSeg (.cons (.str "a") (.cons (.str "b") .nil)) .none "i")
     (by decide) (by decide) (by decide)).trans (by decide)⟩

/-- C7, counterexample: `Lazy(Raw("a"))` is accepted at construction
(ANY `Raw` operand passes `Lazy.__init__`, whatever its text), although
the operand text `"a"` neither ends in a quantifier symbol nor is
bounded-repeat text; and conversely `Lazy("\x7b2,\x7d")` is rejected
although `\x7bm,\x7d` is bounded-repeat pattern text, because
`re.match(r"\\\x7b\\d+(?:,\\d+)?\\\x7d", ...)` does not accept the
`\x7bm,\x7d` form. -/
theorem c7_lazy_validation_cex :
    isOkE (mkLazy (.cons (.seg (.raw false (oneStr "a") .none "")) .nil) .none none none) = true
    ∧ lazyTextOk "a" = false
    ∧ isOkE (mkLazy (oneStr "\x7b2,\x7d") .none none none) = false := by
  refine ⟨by decide, by decide, by decide⟩

/-- C7 (amended): `Lazy` fails with an arity error unless given exactly
one operand.  A node operand is accepted iff it is a `Quantifier` node or
a `Raw` node (a `Raw` node is accepted whatever its text); a plain-string
operand is accepted iff it is nonempty and its last character is `+`, `*`
or `?`, or it STARTS with text of the form `\x7bm\x7d` or `\x7bm,n\x7d`
(`\x7bm,\x7d` is rejected); every other operand fails with
`NotAQuantifier`.  On success the rendering is the stringified operand
(plain strings metacharacter-escaped) followed by a trailing `?`. -/
theorem c7_lazy_characterization (args : Args) :
    (isOkE (mkLazy args .none none none) = true ↔
      ∃ a, args = .cons a .nil ∧ lazyArgOk a = true)
    ∧ ∀ sg, mkLazy args .none none none = .ok sg → sg.render = args.escJoin ++ "?" := by
  cases args with
  | nil =>
    constructor
    · simp [mkLazy, isOkE]
    · intro sg h
      simp [mkLazy] at h
  | cons a rest =>
    cases rest with
    | nil =>
      by_cases h : lazyArgOk a = true
      · constructor
        · simp [mkLazy, h, segInit, capNameOk, flagsToStr, isOkE]
        · intro sg hok
          simp [mkLazy, h, segInit, capNameOk, flagsToStr] at hok
          subst hok
          simp [Seg.render, wrapRender, Seg.strRaw, Seg.ncw, Seg.capture, Seg.flags]
      · constructor
        · constructor
          · intro hok
            simp [mkLazy, h, isOkE] at hok
          · rintro ⟨x, hx, hxok⟩
            cases hx
            exact absurd hxok h
        · intro sg hok
          simp [mkLazy, h] at hok
    | cons b rest2 =>
      constructor
      · simp [mkLazy, isOkE]
      · intro sg h
        simp [mkLazy] at h

/-- Witness for `c7_lazy_characterization`: `Lazy("a*")` succeeds and
renders `a\*?` (the string operand is escaped by the inherited
`Segment._str_raw` before the trailing `?` is appended). -/
theorem c7_lazy_characterization_witness :
    isOkE (mkLazy (oneStr "a*") .none none none) = true
    ∧ Seg.render (.lazyMod (oneStr "a*") .none "") = "a\\*?" := by
  constructor
  · exact ((c7_lazy_characterization (oneStr "a*")).1).mpr ⟨.str "a*", rfl, by decide⟩
  · have h := (c7_lazy_characterization (oneStr "a*")).2 (.lazyMod (oneStr "a*") .none "") rfl
    exact h.trans (by decide)

/-- C8: `Repeat` fails at construction exactly when `m < 0` or `n` is
given and `n < m`; `RepeatExact` fails exactly when `m <= 0`; on success
the rendered quantifier is `\x7bm,n\x7d` when `n` is given, `\x7bm,\x7d`
when `n` is absent, and `\x7bm\x7d` for the exact form (shown on the
single-character operand `"a"`). -/
theorem c8_repeat_bounds (args : Args) (m : Int) (n : Option Int) (lz : Bool) :
    (isOkE (mkRepeat args m n lz .none none none) = true ↔
      (0 ≤ m ∧ ∀ k, n = Option.some k → m ≤ k))
    ∧ (isOkE (mkRepeatExact args m lz .none none none) = true ↔ 0 < m)
    ∧ Seg.render (.quant (.repeatMN m n) false (oneStr "a") .none "")
        = "a" ++ ("\x7b" ++ toString m ++ ","
            ++ (match n with | Option.none => "" | Option.some k => toString k) ++ "\x7d")
    ∧ Seg.render (.quant (.repeatExact m) false (oneStr "a") .none "")
        = "a" ++ ("\x7b" ++ toString m ++ "\x7d") := by
  refine ⟨?_, ?_, ?_, ?_⟩
  · constructor
    · intro hok
      by_cases hm : m < 0
      · have herr : mkRepeat args m n lz .none none none = .error .invalidBound := by
          simp [mkRepeat, segInit, capNameOk, flagsToStr, hm]
        rw [herr] at hok
        simp [isOkE] at hok
      · refine ⟨by omega, ?_⟩
        intro k hk
        subst hk
        by_contra hneg
        have hklt : k < m := by omega
        have herr : mkRepeat args m (Option.some k) lz .none none none
            = .error .invalidBound := by
          simp [mkRepeat, segInit, capNameOk, flagsToStr, hm, hklt]
        rw [herr] at hok
        simp [isOkE] at hok
    · rintro ⟨h0, hk⟩
      have hm : ¬ m < 0 := by omega
      cases n with
      | none => simp [mkRepeat, segInit, capNameOk, flagsToStr, hm, isOkE]
      | some k =>
        have hklt : ¬ k < m := by
          have := hk k rfl
          omega
        simp [mkRepeat, segInit, capNameOk, flagsToStr, hm, hklt, isOkE]
  · constructor
    · intro hok
      by_contra hneg
      have hm : m ≤ 0 := by omega
      have herr : mkRepeatExact args m lz .none none none = .error .invalidBound := by
        simp [mkRepeatExact, segInit, capNameOk, flagsToStr, hm]
      rw [herr] at hok
      simp [isOkE] at hok
    · intro h0
      have hm : ¬ m ≤ 0 := by omega
      simp [mkRepeatExact, segInit, capNameOk, flagsToStr, hm, isOkE]
  · have hw : quantWrap (Args.cons (Arg.str "a") Args.nil) = false := by decide
    simp [Seg.render, wrapRender, Seg.strRaw, oneStr, hw, QuantKind.symbol, Args.escJoin,
      Seg.ncw, Seg.capture, Seg.flags, show reEscape "a" = "a" from by decide,
      String.append_assoc]
  · have hw : quantWrap (Args.cons (Arg.str "a") Args.nil) = false := by decide
    simp [Seg.render, wrapRender, Seg.strRaw, oneStr, hw, QuantKind.symbol, Args.escJoin,
      Seg.ncw, Seg.capture, Seg.flags, show reEscape "a" = "a" from by decide,
      String.append_assoc]

/-- Witness for `c8_repeat_bounds`: `Repeat("a", m=2, n=5)` constructs
and renders `a\x7b2,5\x7d`; `Repeat("a", m=2, n=1)` fails. -/
theorem c8_repeat_bounds_witness :
    isOkE (mkRepeat (oneStr "a") 2 (Option.some 5) false .none none none) = true
    ∧ isOkE (mkRepeat (oneStr "a") 2 (Option.some 1) false .none none none) = false
    ∧ Seg.render (.quant (.repeatMN 2 (Option.some 5)) false (oneStr "a") .none "")
        = "a\x7b2,5\x7d" := by
  refine ⟨?_, ?_, ?_⟩
  · exact ((c8_repeat_bounds (oneStr "a") 2 (Option.some 5) false).1).mpr
      ⟨by decide, by intro k hk; cases hk; decide⟩
  · by_contra hfalse
    simp only [Bool.not_eq_false] at hfalse
    have h := ((c8_repeat_bounds (oneStr "a") 2 (Option.some 1) false).1).mp hfalse
    have := h.2 1 rfl
    omega
  · exact ((c8_repeat_bounds (oneStr "a") 2 (Option.some 5) false).2.2.1).trans (by decide)

/-- C9, counterexample: a NEGATIVE numeric selector is accepted by both
`Captured` and `Conditional` — only string selectors are validated
(`isinstance(id_or_name, str) and not id_or_name.isidentifier()`), so
`Captured(-1)` and `Conditional(-1, "y")` construct successfully,
contradicting the claim that negative numeric selectors fail. -/
theorem c9_negative_selector_accepted :
    isOkE (mkCaptured (.byNum (-1)) .none none none) = true
    ∧ isOkE (mkConditional (.bare (.byNum (-1))) (.str "y") .none .none none none) = true := by
  refine ⟨by decide, by decide⟩

/-- C9 (amended): `Captured` and `Conditional` validate a bare STRING
selector with `str.isidentifier` and fail with `InvalidIdentifier`
exactly when it is not an identifier; a numeric selector is stored with
no validation at all — every integer, including negative ones, is
accepted. -/
theorem c9_selector_validation (s : String) (nv : Int) (yes : Arg) :
    (isOkE (mkCaptured (.byName s) .none none none) = true ↔ pyIsIdentifier s = true)
    ∧ (isOkE (mkConditional (.bare (.byName s)) yes .none .none none none) = true ↔
        pyIsIdentifier s = true)
    ∧ isOkE (mkCaptured (.byNum nv) .none none none) = true
    ∧ isOkE (mkConditional (.bare (.byNum nv)) yes .none .none none none) = true := by
  refine ⟨?_, ?_, ?_, ?_⟩
  · by_cases h : pyIsIdentifier s = true
    · simp [mkCaptured, capNameOk, h, segInit, flagsToStr, isOkE]
    · have hf : pyIsIdentifier s = false := by simpa using h
      simp [mkCaptured, capNameOk, hf, isOkE]
  · by_cases h : pyIsIdentifier s = true
    · simp [mkConditional, capNameOk, h, segInit, flagsToStr, isOkE]
    · have hf : pyIsIdentifier s = false := by simpa using h
      simp [mkConditional, capNameOk, hf, isOkE]
  · simp [mkCaptured, capNameOk, segInit, flagsToStr, isOkE]
  · simp [mkConditional, capNameOk, segInit, flagsToStr, isOkE]

/-- Witness for `c9_selector_validation`: the selector `"a.b"` is
rejected, the selector `"ab"` and the selector `-1` are accepted. -/
theorem c9_selector_validation_witness :
    isOkE (mkCaptured (.byName "a.b") .none none none) = false
    ∧ isOkE (mkCaptured (.byName "ab") .none none none) = true
    ∧ isOkE (mkCaptured (.byNum (-1)) .none none none) = true := by
  refine ⟨?_, ?_, ?_⟩
  · have h := (c9_selector_validation "a.b" (-1) (.str "y")).1
    by_contra hfalse
    simp only [Bool.not_eq_false] at hfalse
    have := h.mp hfalse
    exact absurd this (by decide)
  · exact ((c9_selector_validation "ab" (-1) (.str "y")).1).mpr (by decide)
  · exact (c9_selector_validation "ab" (-1) (.str "y")).2.2.1

/-- Whether the first top-level segment is a `Flag` node (Python's
`isinstance(segments[0], Flag)`; `false` on the empty tuple, where the
short-circuited `any(...)` prevents the index from being evaluated). -/
def Args.headIsFlag : Args → Bool
  | .nil => false
  | .cons a _ => a.isFlagArg

/-- C10: `Regexr(*segments)` fails exactly when some segment is a
standalone `Flag` node and the first segment is not one; otherwise the
resulting value is the concatenation, in argument order, of
`re.escape(part)` for plain strings and `str(part)` for segment nodes. -/
theorem c10_regexr_flag_first (segs : Args) :
    (isOkE (mkRegexr segs) = false ↔
      (Args.anyArg Arg.isFlagArg segs = true ∧ segs.headIsFlag = false))
    ∧ ∀ out, mkRegexr segs = .ok out → out = segs.escJoin := by
  cases segs with
  | nil =>
    constructor
    · simp [mkRegexr, isOkE, Args.anyArg]
    · intro out h
      simp only [mkRegexr, Except.ok.injEq] at h
      exact h.symm
  | cons s0 rest =>
    constructor
    · by_cases h : (Args.anyArg Arg.isFlagArg (.cons s0 rest) && !s0.isFlagArg) = true
      · have h2 := h
        simp only [Bool.and_eq_true, Bool.not_eq_true'] at h2
        constructor
        · intro _
          exact ⟨h2.1, by simp [Args.headIsFlag, h2.2]⟩
        · intro _
          simp [mkRegexr, h, isOkE]
      · constructor
        · intro hfalse
          have hok : isOkE (mkRegexr (Args.cons s0 rest)) = true := by
            simp [mkRegexr, h, isOkE]
          rw [hok] at hfalse
          exact absurd hfalse (by simp)
        · rintro ⟨hany, hhead⟩
          exfalso
          apply h
          simp only [Args.headIsFlag] at hhead
          simp [hany, hhead]
    · intro out hok
      by_cases h : (Args.anyArg Arg.isFlagArg (.cons s0 rest) && !s0.isFlagArg) = true
      · simp [mkRegexr, h] at hok
      · simp [mkRegexr, h] at hok
        exact hok.symm

/-- Witness for `c10_regexr_flag_first`: `Regexr(Flag("i"), "a+")`
succeeds with value `(?i)a\+`, while `Regexr("a+", Flag("i"))` fails. -/
theorem c10_regexr_flag_first_witness :
    (mkRegexr (.cons (.seg (.flagSeg "i")) (oneStr "a+")) = .ok "(?i)a\\+")
    ∧ ("(?i)a\\+" : String) = (Args.cons (.seg (.flagSeg "i")) (oneStr "a+")).escJoin
    ∧ isOkE (mkRegexr (.cons (.str "a+") (.cons (.seg (.flagSeg "i")) .nil))) = false := by
  have hesc : Args.escJoin (.cons (.seg (.flagSeg "i")) (oneStr "a+")) = "(?i)a\\+" := by decide
  have hok : mkRegexr (.cons (.seg (.flagSeg "i")) (oneStr "a+")) = .ok "(?i)a\\+" := by
    calc mkRegexr (.cons (.seg (.flagSeg "i")) (oneStr "a+"))
        = .ok (Args.escJoin (.cons (.seg (.flagSeg "i")) (oneStr "a+"))) := rfl
      _ = .ok "(?i)a\\+" := by rw [hesc]
  refine ⟨hok, ?_, ?_⟩
  · exact (c10_regexr_flag_first (.cons (.seg (.flagSeg "i")) (oneStr "a+"))).2 "(?i)a\\+" hok
  · exact ((c10_regexr_flag_first (.cons (.str "a+") (.cons (.seg (.flagSeg "i")) .nil))).1).mpr
      ⟨by decide, by decide⟩

/-- C3, counterexample: the successfully constructed node `Raw(" ")`
pretty-renders to the single line `" "`; stripping the leading whitespace
of that line and concatenating yields `""`, while the compact rendering
is `" "`. -/
theorem c3_whitespace_literal_cex :
    stripConcat (Seg.pretty (.raw true (oneStr " ") .none "") "  " 0) = ""
    ∧ Seg.render (.raw true (oneStr " ") .none "") = " "
    ∧ ("" : String) ≠ " " := by
  refine ⟨by decide, by decide, by decide⟩

/-! ### Support lemmas for the pretty-compact correspondence (claim C3) -/

theorem data_append_str (a b : String) : (a ++ b).data = a.data ++ b.data := rfl

theorem mk_append_mk (l1 l2 : List Char) : String.mk (l1 ++ l2) = String.mk l1 ++ String.mk l2 := rfl

theorem mk_data (s : String) : String.mk s.data = s := rfl

theorem empty_append_str (s : String) : "" ++ s = s := by
  cases s
  rfl

theorem append_empty_str (s : String) : s ++ "" = s := by
  cases s with
  | mk d =>
    show String.mk (d ++ []) = String.mk d
    rw [List.append_nil]

theorem srep_zero (ind : String) : srep ind 0 = "" := rfl

theorem srep_one (ind : String) : srep ind 1 = ind := by
  show ind ++ srep ind 0 = ind
  rw [srep_zero, append_empty_str]

theorem modifyHead_append_ne_nil (f : List Char → List Char) (a b : List (List Char))
    (h : a ≠ []) : (a ++ b).modifyHead f = a.modifyHead f ++ b := by
  cases a with
  | nil => exact absurd rfl h
  | cons x xs => simp [List.modifyHead]

theorem splitNl_ne_nil : ∀ (l : List Char), splitNl l ≠ []
  | [] => by simp [splitNl]
  | c :: rest => by
    simp only [splitNl]
    split
    · simp
    · cases h : splitNl rest with
      | nil => exact absurd h (splitNl_ne_nil rest)
      | cons a as => simp [List.modifyHead]

theorem splitNl_append_nl : ∀ (x y : List Char), splitNl (x ++ '\n' :: y) = splitNl x ++ splitNl y
  | [], y => by simp [splitNl]
  | c :: x, y => by
    by_cases hc : c = '\n'
    · subst hc
      show splitNl ('\n' :: (x ++ '\n' :: y)) = splitNl ('\n' :: x) ++ splitNl y
      simp only [splitNl, if_pos rfl]
      rw [splitNl_append_nl x y]
      rfl
    · show splitNl (c :: (x ++ '\n' :: y)) = splitNl (c :: x) ++ splitNl y
      simp only [splitNl, if_neg hc]
      rw [splitNl_append_nl x y,
        modifyHead_append_ne_nil (fun l => c :: l) (splitNl x) (splitNl y) (splitNl_ne_nil x)]

theorem splitNl_no_nl : ∀ (l : List Char), (∀ c ∈ l, ¬ c = '\n') → splitNl l = [l]
  | [], _ => rfl
  | c :: rest, h => by
    have hc : ¬ c = '\n' := h c (by simp)
    simp only [splitNl, if_neg hc]
    rw [splitNl_no_nl rest (fun d hd => h d (by simp [hd]))]
    rfl

theorem splitNl_mem_no_nl : ∀ (l : List Char), ∀ p ∈ splitNl l, ∀ c ∈ p, ¬ c = '\n'
  | [], p, hp, c, hc => by
    simp [splitNl] at hp
    subst hp
    simp at hc
  | d :: rest, p, hp, c, hc => by
    by_cases hd : d = '\n'
    · subst hd
      simp only [splitNl, if_pos rfl] at hp
      rcases List.mem_cons.mp hp with h1 | h1
      · subst h1; simp at hc
      · exact splitNl_mem_no_nl rest p h1 c hc
    · simp only [splitNl, if_neg hd] at hp
      cases hsp : splitNl rest with
      | nil => exact absurd hsp (splitNl_ne_nil rest)
      | cons a as =>
        rw [hsp] at hp
        simp only [List.modifyHead] at hp
        rcases List.mem_cons.mp hp with h1 | h1
        · subst h1
          rcases List.mem_cons.mp hc with h2 | h2
          · subst h2; exact hd
          · exact splitNl_mem_no_nl rest a (by rw [hsp]; simp) c h2
        · exact splitNl_mem_no_nl rest p (by rw [hsp]; simp [h1]) c hc

theorem stripConcat_empty : stripConcat "" = "" := rfl

theorem stripConcat_append_nl (a b : String) :
    stripConcat (a ++ "\n" ++ b) = stripConcat a ++ stripConcat b := by
  unfold stripConcat
  have hd : (a ++ "\n" ++ b).data = a.data ++ '\n' :: b.data := by
    simp [data_append_str]
  rw [hd, splitNl_append_nl, List.map_append, List.flatten_append, mk_append_mk]

/-- Concatenation of a list of strings with no separator. -/
def catStrs : List String → String
  | [] => ""
  | s :: rest => s ++ catStrs rest

theorem stripConcat_joinNl_eq : ∀ (ls : List String),
    stripConcat (joinNl ls) = catStrs (ls.map stripConcat)
  | [] => rfl
  | [l] => by simp [joinNl, catStrs, append_empty_str]
  | l :: l2 :: rest => by
    show stripConcat (l ++ "\n" ++ joinNl (l2 :: rest)) = _
    rw [stripConcat_append_nl, stripConcat_joinNl_eq (l2 :: rest)]
    rfl

theorem cleanChar_spec (c : Char) (h : cleanChar c = true) :
    ¬ c = ' ' ∧ ¬ c = '\t' ∧ ¬ c = '\n' := by
  refine ⟨?_, ?_, ?_⟩ <;> intro hc <;> subst hc <;> exact absurd h (by decide)

theorem dropLead_of_clean (l : List Char) (h : l.all cleanChar = true) :
    l.dropWhile (fun c => c = ' ' || c = '\t') = l := by
  cases l with
  | nil => rfl
  | cons c rest =>
    simp only [List.all_cons, Bool.and_eq_true] at h
    have hc := cleanChar_spec c h.1
    simp [List.dropWhile, hc.1, hc.2.1]

theorem stripConcat_of_clean (s : String) (h : strNoWS s = true) : stripConcat s = s := by
  unfold stripConcat
  have hall : s.data.all cleanChar = true := h
  have hno : ∀ c ∈ s.data, ¬ c = '\n' := by
    intro c hc
    exact (cleanChar_spec c (by exact List.all_eq_true.mp hall c hc)).2.2
  rw [splitNl_no_nl s.data hno]
  simp only [List.map_cons, List.map_nil, List.flatten_cons, List.flatten_nil, List.append_nil]
  rw [dropLead_of_clean s.data hall]

theorem dropWhile_spaces_append (pre l : List Char) (h : ∀ c ∈ pre, c = ' ') :
    (pre ++ l).dropWhile (fun c => c = ' ' || c = '\t')
      = l.dropWhile (fun c => c = ' ' || c = '\t') := by
  induction pre with
  | nil => rfl
  | cons c pre ih =>
    have hc : c = ' ' := h c (by simp)
    subst hc
    rw [List.cons_append, List.dropWhile_cons_of_pos (by decide)]
    exact ih (fun d hd => h d (by simp [hd]))

theorem splitNl_append_no_nl (pre l : List Char) (h : ∀ c ∈ pre, ¬ c = '\n') :
    splitNl (pre ++ l) = (splitNl l).modifyHead (fun x => pre ++ x) := by
  induction pre with
  | nil =>
    cases hsp : splitNl l with
    | nil => exact absurd hsp (splitNl_ne_nil l)
    | cons a as =>
      show splitNl l = _
      rw [hsp]
      simp [List.modifyHead]
  | cons c pre ih =>
    have hc : ¬ c = '\n' := h c (by simp)
    show splitNl (c :: (pre ++ l)) = _
    simp only [splitNl, if_neg hc]
    rw [ih (fun d hd => h d (by simp [hd]))]
    cases hsp : splitNl l with
    | nil => exact absurd hsp (splitNl_ne_nil l)
    | cons a as => simp [List.modifyHead]

theorem stripConcat_space_pre (pre x : String) (h : ∀ c ∈ pre.data, c = ' ') :
    stripConcat (pre ++ x) = stripConcat x := by
  unfold stripConcat
  rw [data_append_str, splitNl_append_no_nl pre.data x.data
    (fun c hc => by rw [h c hc]; decide)]
  cases hsp : splitNl x.data with
  | nil => exact absurd hsp (splitNl_ne_nil x.data)
  | cons a as =>
    simp only [List.modifyHead, List.map_cons]
    rw [dropWhile_spaces_append pre.data a h]

/-- A single (newline-free) line is acceptable when everything after its
leading spaces and tabs is clean. -/
def lineOkCh (l : List Char) : Bool :=
  (l.dropWhile (fun c => c = ' ' || c = '\t')).all cleanChar

/-- Every line of the string consists of leading spaces/tabs followed by
clean characters. -/
def linesOk (s : String) : Bool := (splitNl s.data).all lineOkCh

/-- The first character (if any) is not a space or tab. -/
def leadOkCh : List Char → Bool
  | [] => true
  | c :: _ => !(c = ' ' || c = '\t')

/-- The string does not begin with a space or tab. -/
def leadOk (s : String) : Bool := leadOkCh s.data

theorem linesOk_of_clean (s : String) (h : strNoWS s = true) : linesOk s = true := by
  unfold linesOk
  have hno : ∀ c ∈ s.data, ¬ c = '\n' := by
    intro c hc
    exact (cleanChar_spec c (List.all_eq_true.mp h c hc)).2.2
  rw [splitNl_no_nl s.data hno]
  simp only [List.all_cons, List.all_nil, Bool.and_true]
  unfold lineOkCh
  rw [dropLead_of_clean s.data h]
  exact h

theorem leadOk_of_clean (s : String) (h : strNoWS s = true) : leadOk s = true := by
  unfold leadOk leadOkCh
  cases hd : s.data with
  | nil => rfl
  | cons c rest =>
    have hc := cleanChar_spec c (List.all_eq_true.mp h c (by rw [hd]; simp))
    simp [hc.1, hc.2.1]

theorem hasNl_of_clean (s : String) (h : strNoWS s = true) : hasNl s = false := by
  unfold hasNl
  rw [List.any_eq_false]
  intro c hc
  simpa using (cleanChar_spec c (List.all_eq_true.mp h c hc)).2.2

theorem clean_of_single_line (s : String) (h1 : hasNl s = false) (h2 : leadOk s = true)
    (h3 : linesOk s = true) : strNoWS s = true := by
  have hno : ∀ c ∈ s.data, ¬ c = '\n' := by
    intro c hc
    have := List.any_eq_false.mp h1 c hc
    simpa using this
  unfold linesOk at h3
  rw [splitNl_no_nl s.data hno] at h3
  simp only [List.all_cons, List.all_nil, Bool.and_true] at h3
  unfold lineOkCh at h3
  unfold leadOk at h2
  unfold strNoWS
  revert h2 h3
  generalize s.data = l
  intro h2 h3
  cases l with
  | nil => rfl
  | cons c rest =>
    simp only [leadOkCh, Bool.not_eq_true'] at h2
    rw [List.dropWhile_cons_of_neg (by simp [h2])] at h3
    exact h3

theorem hasNl_append (a b : String) : hasNl (a ++ b) = (hasNl a || hasNl b) := by
  unfold hasNl
  rw [data_append_str, List.any_append]

theorem strNoWS_append (a b : String) (ha : strNoWS a = true) (hb : strNoWS b = true) :
    strNoWS (a ++ b) = true := by
  unfold strNoWS
  rw [data_append_str, List.all_append]
  simp only [Bool.and_eq_true]
  exact ⟨ha, hb⟩

theorem linesOk_append_nl (a b : String) (ha : linesOk a = true) (hb : linesOk b = true) :
    linesOk (a ++ "\n" ++ b) = true := by
  unfold linesOk
  have hd : (a ++ "\n" ++ b).data = a.data ++ '\n' :: b.data := by
    simp [data_append_str]
  rw [hd, splitNl_append_nl, List.all_append]
  simp only [Bool.and_eq_true]
  exact ⟨ha, hb⟩

theorem linesOk_empty : linesOk "" = true := by decide

theorem linesOk_joinNl : ∀ (ls : List String), (∀ l ∈ ls, linesOk l = true) →
    linesOk (joinNl ls) = true
  | [], _ => linesOk_empty
  | [l], h => by simpa [joinNl] using h l (by simp)
  | l :: l2 :: rest, h => by
    show linesOk (l ++ "\n" ++ joinNl (l2 :: rest)) = true
    exact linesOk_append_nl _ _ (h l (by simp))
      (linesOk_joinNl (l2 :: rest) (fun x hx => h x (by simp at hx; rcases hx with hx | hx <;> simp [hx])))

theorem leadOk_append (a b : String) (h1 : leadOk a = true) (h2 : leadOk b = true) :
    leadOk (a ++ b) = true := by
  unfold leadOk at *
  rw [data_append_str]
  cases hd : a.data with
  | nil => simpa using h2
  | cons c rest =>
    rw [hd] at h1
    simpa [leadOkCh] using h1

theorem leadOk_nl_append (x : String) : leadOk ("\n" ++ x) = true := by
  unfold leadOk
  show leadOkCh ('\n' :: x.data) = true
  rfl

theorem leadOk_joinNl_head (p : String) (ls : List String) (h : leadOk p = true) :
    leadOk (joinNl (p :: ls)) = true := by
  cases ls with
  | nil => simpa [joinNl]
  | cons l2 rest =>
    show leadOk (p ++ "\n" ++ joinNl (l2 :: rest)) = true
    rw [String.append_assoc]
    exact leadOk_append _ _ h (leadOk_nl_append _)

theorem linesOk_space_pre (pre x : String) (hp : ∀ c ∈ pre.data, c = ' ')
    (h : linesOk x = true) : linesOk (pre ++ x) = true := by
  unfold linesOk
  rw [data_append_str, splitNl_append_no_nl pre.data x.data
    (fun c hc => by rw [hp c hc]; decide)]
  cases hsp : splitNl x.data with
  | nil => exact absurd hsp (splitNl_ne_nil x.data)
  | cons a as =>
    unfold linesOk at h
    rw [hsp] at h
    simp only [List.all_cons, Bool.and_eq_true] at h
    simp only [List.modifyHead, List.all_cons, Bool.and_eq_true]
    refine ⟨?_, h.2⟩
    unfold lineOkCh
    rw [dropWhile_spaces_append pre.data a hp]
    exact h.1

theorem reEscape_clean_list : ∀ (l : List Char), l.all cleanChar = true →
    (l.foldr (fun c acc => if reSpecialChar c then '\\' :: c :: acc else c :: acc) []).all
      cleanChar = true
  | [], _ => rfl
  | c :: rest, h => by
    simp only [List.all_cons, Bool.and_eq_true] at h
    have ih := reEscape_clean_list rest h.2
    simp only [List.foldr_cons]
    split
    · simp only [List.all_cons, Bool.and_eq_true]
      exact ⟨by decide, h.1, ih⟩
    · simp only [List.all_cons, Bool.and_eq_true]
      exact ⟨h.1, ih⟩

theorem reEscape_clean (s : String) (h : strNoWS s = true) : strNoWS (reEscape s) = true :=
  reEscape_clean_list s.data h

theorem digitChar_clean : ∀ (n : Nat), cleanChar (Nat.digitChar n) = true
  | 0 => by decide
  | 1 => by decide
  | 2 => by decide
  | 3 => by decide
  | 4 => by decide
  | 5 => by decide
  | 6 => by decide
  | 7 => by decide
  | 8 => by decide
  | 9 => by decide
  | 10 => by decide
  | 11 => by decide
  | 12 => by decide
  | 13 => by decide
  | 14 => by decide
  | 15 => by decide
  | (_ + 16) => by rfl

theorem toDigitsCore_clean (b : Nat) : ∀ (f n : Nat) (l : List Char),
    (∀ c ∈ l, cleanChar c = true) → ∀ c ∈ Nat.toDigitsCore b f n l, cleanChar c = true := by
  intro f
  induction f with
  | zero =>
    intro n l h c hc
    exact h c (by simpa [Nat.toDigitsCore] using hc)
  | succ f ih =>
    intro n l h c hc
    simp only [Nat.toDigitsCore] at hc
    split at hc
    · rcases List.mem_cons.mp hc with h1 | h1
      · subst h1; exact digitChar_clean _
      · exact h c h1
    · refine ih _ _ ?_ c hc
      intro d hd
      rcases List.mem_cons.mp hd with h1 | h1
      · subst h1; exact digitChar_clean _
      · exact h d h1

theorem natRepr_clean (n : Nat) : strNoWS (Nat.repr n) = true := by
  unfold strNoWS
  rw [List.all_eq_true]
  intro c hc
  exact toDigitsCore_clean 10 (n + 1) n [] (by simp) c hc

theorem intToString_clean (m : Int) : strNoWS (toString m) = true := by
  show strNoWS (Int.repr m) = true
  cases m with
  | ofNat n => exact natRepr_clean n
  | negSucc n =>
    show strNoWS ("-" ++ Nat.repr (n + 1)) = true
    exact strNoWS_append _ _ (by decide) (natRepr_clean (n + 1))

theorem strNoWS_append_eq (a b : String) : strNoWS (a ++ b) = (strNoWS a && strNoWS b) := by
  unfold strNoWS
  rw [data_append_str, List.all_append]

/-- The capture and flags fields of any segment are whitespace-free when
the whole tree is. -/
theorem noWS_fields (s : Seg) (h : s.noWS = true) :
    s.capture.noWS = true ∧ strNoWS s.flags = true := by
  cases s <;> simp only [Seg.noWS, Bool.and_eq_true] at h <;>
    simp only [Seg.capture, Seg.flags] <;>
    first
      | exact ⟨h.1.2, h.2⟩
      | exact ⟨rfl, by decide⟩

theorem wrapRender_clean (r : String) (ncw : Bool) (cap : Cap) (fl : String)
    (hr : strNoWS r = true) (hc : cap.noWS = true) (hf : strNoWS fl = true) :
    strNoWS (wrapRender r ncw cap fl) = true := by
  have ha : strNoWS (if fl = "" then r else "(?" ++ fl ++ ":" ++ r ++ ")") = true := by
    split
    · exact hr
    · simp only [strNoWS_append_eq, Bool.and_eq_true]
      refine ⟨⟨⟨⟨by decide, hf⟩, by decide⟩, hr⟩, by decide⟩
  cases cap with
  | anon =>
    simp only [wrapRender]
    simp only [strNoWS_append_eq, Bool.and_eq_true]
    exact ⟨⟨by decide, ha⟩, by decide⟩
  | none =>
    simp only [wrapRender]
    split
    · simp only [strNoWS_append_eq, Bool.and_eq_true]
      exact ⟨⟨by decide, ha⟩, by decide⟩
    · exact ha
  | named n =>
    simp only [Cap.noWS] at hc
    simp only [wrapRender]
    split
    · split
      · simp only [strNoWS_append_eq, Bool.and_eq_true]
        exact ⟨⟨by decide, ha⟩, by decide⟩
      · exact ha
    · simp only [strNoWS_append_eq, Bool.and_eq_true]
      exact ⟨⟨⟨⟨by decide, hc⟩, by decide⟩, ha⟩, by decide⟩

theorem pfx_clean (k : LookKind) : strNoWS k.pfx = true := by
  cases k <;> decide

theorem symbol_clean (k : QuantKind) : strNoWS k.symbol = true := by
  cases k with
  | zeroOrMore => decide
  | oneOrMore => decide
  | maybe => decide
  | repeatMN m n =>
    simp only [QuantKind.symbol, strNoWS_append_eq, Bool.and_eq_true]
    refine ⟨⟨⟨⟨by decide, intToString_clean m⟩, by decide⟩, ?_⟩, by decide⟩
    cases n with
    | none => decide
    | some k => exact intToString_clean k
  | repeatExact m =>
    simp only [QuantKind.symbol, strNoWS_append_eq, Bool.and_eq_true]
    exact ⟨⟨by decide, intToString_clean m⟩, by decide⟩

theorem interp_clean (t : RefTarget) (h : t.noWS = true) : strNoWS t.interp = true := by
  cases t with
  | byName s => exact h
  | byNum n => exact intToString_clean n

mutual
theorem strRaw_clean : ∀ (s : Seg), s.noWS = true → strNoWS s.strRaw = true
  | .oneOf args cap fl, h => by
    simp only [Seg.noWS, Bool.and_eq_true] at h
    simp only [Seg.strRaw, strNoWS_append_eq, Bool.and_eq_true]
    exact ⟨⟨by decide, plainJoin_clean args h.1.1⟩, by decide⟩
  | .noneOf args cap fl, h => by
    simp only [Seg.noWS, Bool.and_eq_true] at h
    simp only [Seg.strRaw, strNoWS_append_eq, Bool.and_eq_true]
    exact ⟨⟨by decide, plainJoin_clean args h.1.1⟩, by decide⟩
  | .look k args cap fl, h => by
    simp only [Seg.noWS, Bool.and_eq_true] at h
    simp only [Seg.strRaw, strNoWS_append_eq, Bool.and_eq_true]
    exact ⟨⟨⟨by decide, pfx_clean k⟩, escJoin_clean args h.1.1⟩, by decide⟩
  | .quant k lz args cap fl, h => by
    simp only [Seg.noWS, Bool.and_eq_true] at h
    simp only [Seg.strRaw]
    have hq : strNoWS (k.symbol ++ (if lz then "?" else "")) = true := by
      simp only [strNoWS_append_eq, Bool.and_eq_true]
      refine ⟨symbol_clean k, ?_⟩
      split <;> decide
    split
    · simp only [strNoWS_append_eq, Bool.and_eq_true]
      exact ⟨⟨⟨by decide, escJoin_clean args h.1.1⟩, by decide⟩, symbol_clean k,
        by split <;> decide⟩
    · simp only [strNoWS_append_eq, Bool.and_eq_true]
      exact ⟨escJoin_clean args h.1.1, symbol_clean k, by split <;> decide⟩
  | .lazyMod args cap fl, h => by
    simp only [Seg.noWS, Bool.and_eq_true] at h
    simp only [Seg.strRaw, strNoWS_append_eq, Bool.and_eq_true]
    exact ⟨escJoin_clean args h.1.1, by decide⟩
  | .flagSeg codes, h => by
    simp only [Seg.noWS] at h
    simp only [Seg.strRaw, strNoWS_append_eq, Bool.and_eq_true]
    exact ⟨⟨by decide, reEscape_clean codes h⟩, by decide⟩
  | .inlineFlag args cap fl, h => by
    simp only [Seg.noWS, Bool.and_eq_true] at h
    simp only [Seg.strRaw]
    exact escJoin_clean args h.1.1
  | .raw e args cap fl, h => by
    simp only [Seg.noWS, Bool.and_eq_true] at h
    simp only [Seg.strRaw]
    exact plainJoin_clean args h.1.1
  | .orSeg args cap fl, h => by
    simp only [Seg.noWS, Bool.and_eq_true] at h
    simp only [Seg.strRaw]
    exact orJoin_clean args h.1.1
  | .captureSeg args cap fl, h => by
    simp only [Seg.noWS, Bool.and_eq_true] at h
    simp only [Seg.strRaw]
    exact escJoin_clean args h.1.1
  | .nonCapture args cap fl, h => by
    simp only [Seg.noWS, Bool.and_eq_true] at h
    simp only [Seg.strRaw]
    exact escJoin_clean args h.1.1
  | .concat args cap fl, h => by
    simp only [Seg.noWS, Bool.and_eq_true] at h
    simp only [Seg.strRaw]
    exact escJoin_clean args h.1.1
  | .conditional sel yes noBr cap fl, h => by
    simp only [Seg.noWS, Bool.and_eq_true] at h
    have hyes : strNoWS yes.pyStr = true := pyStr_clean yes h.1.1.1.2
    have hsel : strNoWS sel.target.interp = true := interp_clean _ h.1.1.1.1
    cases noBr with
    | none =>
      simp only [Seg.strRaw, strNoWS_append_eq, Bool.and_eq_true]
      exact ⟨⟨⟨⟨⟨by decide, hsel⟩, by decide⟩, hyes⟩, by decide⟩, by decide⟩
    | some a =>
      cases a with
      | str s =>
        simp only [Seg.strRaw, strNoWS_append_eq, Bool.and_eq_true]
        refine ⟨⟨⟨⟨⟨by decide, hsel⟩, by decide⟩, hyes⟩, ?_⟩, by decide⟩
        split
        · decide
        · simp only [strNoWS_append_eq, Bool.and_eq_true]
          exact ⟨by decide, h.1.1.2⟩
      | seg sg =>
        simp only [Seg.strRaw, strNoWS_append_eq, Bool.and_eq_true]
        have hsg : sg.noWS = true := h.1.1.2
        exact ⟨⟨⟨⟨⟨by decide, hsel⟩, by decide⟩, hyes⟩, by decide,
          wrapRender_clean _ _ _ _ (strRaw_clean sg hsg) (noWS_fields sg hsg).1
            (noWS_fields sg hsg).2⟩, by decide⟩
  | .captured t cap fl, h => by
    simp only [Seg.noWS, Bool.and_eq_true] at h
    cases t with
    | byName s =>
      simp only [Seg.strRaw, strNoWS_append_eq, Bool.and_eq_true]
      exact ⟨⟨by decide, h.1.1⟩, by decide⟩
    | byNum n =>
      simp only [Seg.strRaw, strNoWS_append_eq, Bool.and_eq_true]
      exact ⟨by decide, intToString_clean n⟩

theorem pyStr_clean : ∀ (a : Arg), a.noWS = true → strNoWS a.pyStr = true
  | .str _, h => h
  | .seg sg, h =>
    wrapRender_clean _ _ _ _ (strRaw_clean sg h) (noWS_fields sg h).1 (noWS_fields sg h).2

theorem escJoin_clean : ∀ (args : Args), args.noWS = true → strNoWS args.escJoin = true
  | .nil, _ => by decide
  | .cons (.str s) rest, h => by
    simp only [Args.noWS, Arg.noWS, Bool.and_eq_true] at h
    simp only [Args.escJoin, strNoWS_append_eq, Bool.and_eq_true]
    exact ⟨reEscape_clean s h.1, escJoin_clean rest h.2⟩
  | .cons (.seg sg) rest, h => by
    simp only [Args.noWS, Arg.noWS, Bool.and_eq_true] at h
    simp only [Args.escJoin, strNoWS_append_eq, Bool.and_eq_true]
    exact ⟨wrapRender_clean _ _ _ _ (strRaw_clean sg h.1) (noWS_fields sg h.1).1
      (noWS_fields sg h.1).2, escJoin_clean rest h.2⟩

theorem plainJoin_clean : ∀ (args : Args), args.noWS = true → strNoWS args.plainJoin = true
  | .nil, _ => by decide
  | .cons a rest, h => by
    simp only [Args.noWS, Bool.and_eq_true] at h
    simp only [Args.plainJoin, strNoWS_append_eq, Bool.and_eq_true]
    exact ⟨pyStr_clean a h.1, plainJoin_clean rest h.2⟩

theorem orJoin_clean : ∀ (args : Args), args.noWS = true → strNoWS args.orJoin = true
  | .nil, _ => by decide
  | .cons a .nil, h => by
    simp only [Args.noWS, Bool.and_eq_true] at h
    simp only [Args.orJoin]
    exact pyStr_clean a h.1
  | .cons a (.cons b rest), h => by
    simp only [Args.noWS, Bool.and_eq_true] at h
    simp only [Args.orJoin, strNoWS_append_eq, Bool.and_eq_true]
    exact ⟨⟨pyStr_clean a h.1, by decide⟩,
      orJoin_clean (.cons b rest) (by simp only [Args.noWS, Bool.and_eq_true]; exact h.2)⟩
end

/-- The compact rendering of a whitespace-free tree is whitespace-free. -/
theorem render_clean (s : Seg) (h : s.noWS = true) : strNoWS s.render = true :=
  wrapRender_clean _ _ _ _ (strRaw_clean s h) (noWS_fields s h).1 (noWS_fields s h).2

/-- The bundle proved about every pretty-printed fragment `p` with compact
counterpart `t`: stripping and concatenating `p` gives `t`, every line of
`p` is indentation followed by clean characters, `p` does not start with
indentation, and a single-line `p` is exactly `t`. -/
def partGood (p t : String) : Prop :=
  stripConcat p = t ∧ linesOk p = true ∧ leadOk p = true

theorem partGood_of_clean (t : String) (h : strNoWS t = true) : partGood t t :=
  ⟨stripConcat_of_clean t h, linesOk_of_clean t h, leadOk_of_clean t h⟩

/-- A single-line fragment satisfying the bundle IS its compact
counterpart. -/
theorem partGood_single (p t : String) (h : partGood p t) (hnl : hasNl p = false) : p = t := by
  have hc := clean_of_single_line p hnl h.2.2 h.2.1
  rw [← h.1, stripConcat_of_clean p hc]

theorem catStrs_append : ∀ (a b : List String), catStrs (a ++ b) = catStrs a ++ catStrs b
  | [], b => (empty_append_str _).symm
  | s :: a, b => by
    show s ++ catStrs (a ++ b) = (s ++ catStrs a) ++ catStrs b
    rw [catStrs_append a b, ← String.append_assoc]

theorem catStrs_map_mk : ∀ (ls : List (List Char)),
    catStrs (ls.map String.mk) = String.mk ls.flatten
  | [] => rfl
  | l :: ls => by
    simp only [List.map_cons, catStrs, List.flatten_cons]
    rw [catStrs_map_mk ls, mk_append_mk]

theorem stripConcat_mk_no_nl (l : List Char) (h : ∀ c ∈ l, ¬ c = '\n') :
    stripConcat (String.mk l)
      = String.mk (l.dropWhile (fun c => c = ' ' || c = '\t')) := by
  unfold stripConcat
  rw [show (String.mk l).data = l from rfl, splitNl_no_nl l h]
  simp

theorem catStrs_sc_splitAll (x : String) :
    catStrs ((splitAllNl x).map stripConcat) = stripConcat x := by
  unfold splitAllNl
  rw [List.map_map]
  have h1 : (splitNl x.data).map (stripConcat ∘ String.mk)
      = (splitNl x.data).map
          (fun l => String.mk (l.dropWhile (fun c => c = ' ' || c = '\t'))) := by
    apply List.map_congr_left
    intro l hl
    exact stripConcat_mk_no_nl l (splitNl_mem_no_nl x.data l hl)
  have h2 : ((splitNl x.data).map (fun l => l.dropWhile (fun c => c = ' ' || c = '\t'))).map
        String.mk
      = (splitNl x.data).map
          (fun l => String.mk (l.dropWhile (fun c => c = ' ' || c = '\t'))) := by
    rw [List.map_map]
    rfl
  rw [h1, ← h2, catStrs_map_mk]
  rfl

theorem catStrs_sc_splitlines (x : String) :
    catStrs ((splitlinesPy x).map stripConcat) = stripConcat x := by
  have hsplit : splitlinesPy x = (match (splitAllNl x).getLast? with
      | some g => if g = "" then (splitAllNl x).dropLast else splitAllNl x
      | none => splitAllNl x) := rfl
  rw [hsplit]
  cases hl : (splitAllNl x).getLast? with
  | none => rw [catStrs_sc_splitAll]
  | some g =>
    by_cases hg : g = ""
    · subst hg
      simp only [if_pos rfl]
      have hne : splitAllNl x ≠ [] := by
        intro hx
        rw [hx] at hl
        simp at hl
      rw [List.getLast?_eq_getLast _ hne] at hl
      have hlast : (splitAllNl x).getLast hne = "" := by
        injection hl
      have hdecomp : splitAllNl x = (splitAllNl x).dropLast ++ [""] := by
        conv_lhs => rw [← List.dropLast_append_getLast hne]
        rw [hlast]
      rw [← catStrs_sc_splitAll x]
      conv_rhs => rw [hdecomp]
      rw [List.map_append, catStrs_append]
      simp [catStrs, stripConcat_empty, append_empty_str]
    · simp only [if_neg hg]
      rw [catStrs_sc_splitAll]

theorem mem_splitAllNl_no_nl (x : String) (l : String) (h : l ∈ splitAllNl x) :
    ∀ c ∈ l.data, ¬ c = '\n' := by
  unfold splitAllNl at h
  rcases List.mem_map.mp h with ⟨p, hp, hpl⟩
  subst hpl
  exact splitNl_mem_no_nl x.data p hp

theorem mem_splitlines_mem_splitAll (x : String) (l : String) (h : l ∈ splitlinesPy x) :
    l ∈ splitAllNl x := by
  have hsplit : splitlinesPy x = (match (splitAllNl x).getLast? with
      | some g => if g = "" then (splitAllNl x).dropLast else splitAllNl x
      | none => splitAllNl x) := rfl
  rw [hsplit] at h
  cases hl : (splitAllNl x).getLast? with
  | none => simp only [hl] at h; exact h
  | some g =>
    simp only [hl] at h
    split at h
    · exact List.dropLast_subset _ h
    · exact h

theorem linesOk_mem_line (x : String) (hx : linesOk x = true) (l : String)
    (h : l ∈ splitAllNl x) : linesOk l = true := by
  unfold linesOk
  rcases List.mem_map.mp h with ⟨p, hp, hpl⟩
  subst hpl
  rw [show (String.mk p).data = p from rfl,
    splitNl_no_nl p (splitNl_mem_no_nl x.data p hp)]
  simp only [List.all_cons, List.all_nil, Bool.and_true]
  unfold linesOk at hx
  exact List.all_eq_true.mp hx p hp

theorem hasNl_joinNl_cons_cons (a b : String) (l : List String) :
    hasNl (joinNl (a :: b :: l)) = true := by
  show hasNl (a ++ "\n" ++ joinNl (b :: l)) = true
  rw [hasNl_append, hasNl_append]
  have : hasNl "\n" = true := by decide
  rw [this]
  simp

theorem joinNl_bundle : ∀ (parts targets : List String),
    List.Forall₂ partGood parts targets → partGood (joinNl parts) (catStrs targets)
  | [], [], _ => partGood_of_clean "" (by decide)
  | p :: parts, t :: targets, h => by
    rcases h with _ | ⟨hpt, hrest⟩
    cases parts with
    | nil =>
      cases hrest
      refine ⟨?_, hpt.2.1, hpt.2.2⟩
      show stripConcat p = t ++ ""
      rw [append_empty_str]
      exact hpt.1
    | cons p2 parts2 =>
      cases hrest with
      | cons h2 hrest2 =>
        have ih := joinNl_bundle (p2 :: parts2) _ (List.Forall₂.cons h2 hrest2)
        refine ⟨?_, ?_, ?_⟩
        · show stripConcat (p ++ "\n" ++ joinNl (p2 :: parts2)) = _
          rw [stripConcat_append_nl, hpt.1, ih.1]
          rfl
        · show linesOk (p ++ "\n" ++ joinNl (p2 :: parts2)) = true
          exact linesOk_append_nl _ _ hpt.2.1 ih.2.1
        · exact leadOk_joinNl_head p _ hpt.2.2

theorem splitNl_head_lead (l : List Char) (h : leadOkCh l = true) :
    ∀ a as, splitNl l = a :: as → leadOkCh a = true := by
  intro a as hsp
  cases l with
  | nil =>
    simp only [splitNl, List.cons.injEq] at hsp
    rw [← hsp.1]
    rfl
  | cons c rest =>
    by_cases hc : c = '\n'
    · subst hc
      simp only [splitNl, if_true] at hsp
      rw [List.cons.injEq] at hsp
      rw [← hsp.1]
      rfl
    · simp only [splitNl, if_neg hc] at hsp
      cases hsp2 : splitNl rest with
      | nil => exact absurd hsp2 (splitNl_ne_nil rest)
      | cons b bs =>
        rw [hsp2] at hsp
        simp only [List.modifyHead, List.cons.injEq] at hsp
        rw [← hsp.1]
        exact h

theorem splitlinesPy_head (x : String) (p : String) (ps : List String)
    (h : splitlinesPy x = p :: ps) : ∃ qs, splitAllNl x = p :: qs := by
  have hsplit : splitlinesPy x = (match (splitAllNl x).getLast? with
      | some g => if g = "" then (splitAllNl x).dropLast else splitAllNl x
      | none => splitAllNl x) := rfl
  rw [hsplit] at h
  cases hl : (splitAllNl x).getLast? with
  | none => simp only [hl] at h; exact ⟨ps, h⟩
  | some g =>
    simp only [hl] at h
    split at h
    · cases hq : splitAllNl x with
      | nil => rw [hq] at h; simp at h
      | cons q qs =>
        rw [hq] at h
        cases qs with
        | nil => simp at h
        | cons q2 qs2 =>
          refine ⟨q2 :: qs2, ?_⟩
          have : (q :: q2 :: qs2).dropLast = q :: (q2 :: qs2).dropLast := rfl
          rw [this] at h
          injection h with h1 h2
          rw [← h1]
    · exact ⟨ps, h⟩

theorem leadOk_mk (p : List Char) : leadOk (String.mk p) = leadOkCh p := rfl

theorem partGood_rejoin_splitlines (x t : String) (h : partGood x t) :
    partGood (joinNl (splitlinesPy x)) t := by
  refine ⟨?_, ?_, ?_⟩
  · rw [stripConcat_joinNl_eq, catStrs_sc_splitlines]
    exact h.1
  · apply linesOk_joinNl
    intro l hl
    exact linesOk_mem_line x h.2.1 l (mem_splitlines_mem_splitAll x l hl)
  · cases hsp : splitlinesPy x with
    | nil => decide
    | cons p ps =>
      rcases splitlinesPy_head x p ps hsp with ⟨qs, hq⟩
      apply leadOk_joinNl_head
      unfold splitAllNl at hq
      cases hq2 : splitNl x.data with
      | nil => exact absurd hq2 (splitNl_ne_nil x.data)
      | cons a as =>
        rw [hq2] at hq
        simp only [List.map_cons, List.cons.injEq] at hq
        rw [← hq.1, leadOk_mk]
        exact splitNl_head_lead x.data h.2.2 a as hq2

theorem dropLead_cons_of_lead (c : Char) (r : List Char) (h : leadOkCh (c :: r) = true) :
    (c :: r).dropWhile (fun d => d = ' ' || d = '\t') = c :: r := by
  apply List.dropWhile_cons_of_neg
  simp only [leadOkCh, Bool.not_eq_true'] at h
  simp [h]

theorem dropLead_of_lead (l : List Char) (h : leadOkCh l = true) :
    l.dropWhile (fun d => d = ' ' || d = '\t') = l := by
  cases l with
  | nil => rfl
  | cons c r => exact dropLead_cons_of_lead c r h

theorem stripConcat_bar_pre (x : String) (h : leadOk x = true) :
    stripConcat ("|" ++ x) = "|" ++ stripConcat x := by
  unfold stripConcat
  have hd : ("|" ++ x).data = '|' :: x.data := rfl
  rw [hd]
  have hb : ¬ ('|' : Char) = '\n' := by decide
  simp only [splitNl, if_neg hb]
  cases hsp : splitNl x.data with
  | nil => exact absurd hsp (splitNl_ne_nil x.data)
  | cons a as =>
    simp only [List.modifyHead, List.map_cons, List.flatten_cons]
    have ha : leadOkCh a = true := splitNl_head_lead x.data h a as hsp
    rw [dropLead_cons_of_lead '|' a (by rfl), dropLead_of_lead a ha]
    rfl

theorem linesOk_bar_pre (x : String) (hl : leadOk x = true) (h : linesOk x = true) :
    linesOk ("|" ++ x) = true := by
  unfold linesOk
  have hd : ("|" ++ x).data = '|' :: x.data := rfl
  rw [hd]
  have hb : ¬ ('|' : Char) = '\n' := by decide
  simp only [splitNl, if_neg hb]
  cases hsp : splitNl x.data with
  | nil => exact absurd hsp (splitNl_ne_nil x.data)
  | cons a as =>
    unfold linesOk at h
    rw [hsp] at h
    simp only [List.all_cons, Bool.and_eq_true] at h
    simp only [List.modifyHead, List.all_cons, Bool.and_eq_true]
    refine ⟨?_, h.2⟩
    unfold lineOkCh
    rw [dropLead_cons_of_lead '|' a (by rfl)]
    have ha : leadOkCh a = true := splitNl_head_lead x.data hl a as hsp
    simp only [List.all_cons, Bool.and_eq_true]
    refine ⟨by decide, ?_⟩
    unfold lineOkCh at h
    rw [dropLead_of_lead a ha] at h
    exact h.1

theorem leadOk_bar_pre (x : String) : leadOk ("|" ++ x) = true := by
  unfold leadOk
  show leadOkCh ('|' :: x.data) = true
  rfl

/-- `"|" ++ _` preserves the fragment bundle. -/
theorem partGood_bar_pre (p t : String) (h : partGood p t) :
    partGood ("|" ++ p) ("|" ++ t) :=
  ⟨by rw [stripConcat_bar_pre p h.2.2, h.1], linesOk_bar_pre p h.2.2 h.2.1,
   leadOk_bar_pre p⟩

theorem wrapRender_plain (t : String) (cap : Cap) (h : cap.truthy = false) :
    wrapRender t false cap "" = t := by
  cases cap with
  | anon => simp [Cap.truthy] at h
  | none => simp [wrapRender]
  | named n =>
    have hn : n = "" := by
      by_contra hne
      simp [Cap.truthy, hne] at h
    subst hn
    simp [wrapRender]

theorem srep_spaces (ind : String) (hind : ∀ c ∈ ind.data, c = ' ') :
    ∀ n, ∀ c ∈ (srep ind n).data, c = ' '
  | 0, c, hc => by
    rw [srep_zero] at hc
    simp [show ("" : String).data = [] from rfl] at hc
  | n + 1, c, hc => by
    rw [show srep ind (n + 1) = ind ++ srep ind n from rfl, data_append_str] at hc
    rcases List.mem_append.mp hc with h | h
    · exact hind c h
    · exact srep_spaces ind hind n c h

/-- The bundle for the single-line and the re-flowed multi-line wrapper
output of `Segment.pretty`, with arbitrary start and stop token strings. -/
theorem partGood_wrap (r t start stop pre : String)
    (hsrep : ∀ c ∈ pre.data, c = ' ')
    (hpr : partGood r t) (ht : strNoWS t = true)
    (hstart : strNoWS start = true) (hstop : strNoWS stop = true) :
    partGood
      (if !hasNl r then start ++ r ++ stop
       else joinNl (start :: ((splitlinesPy r).map (fun l => pre ++ l)) ++ [stop]))
      (start ++ t ++ stop) := by
  split
  · rename_i hcond
    simp only [Bool.not_eq_true'] at hcond
    rw [partGood_single r t hpr hcond]
    exact partGood_of_clean _ (strNoWS_append _ _ (strNoWS_append _ _ hstart ht) hstop)
  · rename_i hcond
    refine ⟨?_, ?_, ?_⟩
    · rw [stripConcat_joinNl_eq]
      simp only [List.map_cons, List.map_append, List.map_map]
      have hmid : (splitlinesPy r).map (stripConcat ∘ (fun l => pre ++ l))
          = List.map stripConcat (splitlinesPy r) := by
        apply List.map_congr_left
        intro l _
        exact stripConcat_space_pre _ l hsrep
      rw [hmid, catStrs_append]
      show (stripConcat start ++ catStrs (List.map stripConcat (splitlinesPy r)))
          ++ (stripConcat stop ++ catStrs (List.map stripConcat ([] : List String)))
          = start ++ t ++ stop
      rw [catStrs_sc_splitlines, hpr.1, stripConcat_of_clean start hstart,
        stripConcat_of_clean stop hstop]
      show (start ++ t) ++ (stop ++ "") = start ++ t ++ stop
      rw [append_empty_str]
    · apply linesOk_joinNl
      intro l hl
      rcases List.mem_cons.mp hl with h1 | h1
      · subst h1
        exact linesOk_of_clean _ hstart
      · rcases List.mem_append.mp h1 with h2 | h2
        · rcases List.mem_map.mp h2 with ⟨p, hp, hpl⟩
          subst hpl
          exact linesOk_space_pre _ p hsrep
            (linesOk_mem_line r hpr.2.1 p (mem_splitlines_mem_splitAll r p hp))
        · rw [List.mem_singleton.mp h2]
          exact linesOk_of_clean stop hstop
    · exact leadOk_joinNl_head start _ (leadOk_of_clean start hstart)

theorem indent_rejoin_all_sc (x t ind : String) (hind : ∀ c ∈ ind.data, c = ' ')
    (h : partGood x t) :
    stripConcat (joinNl ((splitAllNl x).map (fun l => ind ++ l))) = t := by
  rw [stripConcat_joinNl_eq, List.map_map]
  have hmid : (splitAllNl x).map (stripConcat ∘ (fun l => ind ++ l))
      = (splitAllNl x).map stripConcat := by
    apply List.map_congr_left
    intro l _
    exact stripConcat_space_pre ind l hind
  rw [hmid, catStrs_sc_splitAll]
  exact h.1

theorem indent_rejoin_all_linesOk (x ind : String) (hind : ∀ c ∈ ind.data, c = ' ')
    (h : linesOk x = true) :
    linesOk (joinNl ((splitAllNl x).map (fun l => ind ++ l))) = true := by
  apply linesOk_joinNl
  intro l hl
  rcases List.mem_map.mp hl with ⟨p, hp, hpl⟩
  subst hpl
  exact linesOk_space_pre ind p hind (linesOk_mem_line x h p hp)

theorem capStartStr_clean (cap : Cap) (hcap : cap.noWS = true) :
    strNoWS (capStartStr cap) = true := by
  cases cap with
  | anon => decide
  | none => decide
  | named n =>
    simp only [Cap.noWS] at hcap
    simp only [capStartStr]
    split
    · decide
    · exact strNoWS_append _ _ (strNoWS_append _ _ (by decide) hcap) (by decide)

theorem startStop_clean (ncw : Bool) (cap : Cap) (fl ind : String)
    (hcap : cap.noWS = true) (hfl : strNoWS fl = true) :
    strNoWS (prettyStartStop ncw cap fl ind 0).1 = true
    ∧ strNoWS (prettyStartStop ncw cap fl ind 0).2 = true := by
  have hfs : strNoWS (if fl = "" then "" else "(?" ++ fl ++ ":") = true := by
    split
    · decide
    · exact strNoWS_append _ _ (strNoWS_append _ _ (by decide) hfl) (by decide)
  have hfe : strNoWS (if fl = "" then "" else ")") = true := by split <;> decide
  simp only [prettyStartStop, srep_zero]
  split
  · constructor
    · exact strNoWS_append _ _
        (strNoWS_append _ _ (by decide) (capStartStr_clean cap hcap)) hfs
    · exact strNoWS_append _ _ (strNoWS_append _ _ (by decide) hfe) (by decide)
  · split
    · constructor
      · decide
      · decide
    · constructor
      · exact strNoWS_append _ _ (by decide) hfs
      · exact strNoWS_append _ _ (by decide) hfe

theorem startStop_render (ncw : Bool) (cap : Cap) (fl : String) (ind : String) (T : String)
    (hb : ¬((!cap.truthy && !ncw && decide (fl = "")) = true)) :
    (prettyStartStop ncw cap fl ind 0).1 ++ T ++ (prettyStartStop ncw cap fl ind 0).2
      = wrapRender T ncw cap fl := by
  cases cap with
  | anon =>
    by_cases hfl0 : fl = ""
    · subst hfl0
      simp [prettyStartStop, capStartStr, wrapRender, srep_zero, Cap.truthy, empty_append_str,
        String.append_assoc]
    · simp [prettyStartStop, capStartStr, wrapRender, srep_zero, Cap.truthy, hfl0, empty_append_str,
        String.append_assoc]
  | none =>
    by_cases hfl0 : fl = ""
    · subst hfl0
      have hncw : ncw = true := by
        cases hn : ncw
        · rw [hn] at hb
          simp [Cap.truthy] at hb
        · rfl
      subst hncw
      simp [prettyStartStop, capStartStr, wrapRender, srep_zero, Cap.truthy, empty_append_str,
        String.append_assoc]
    · simp [prettyStartStop, capStartStr, wrapRender, srep_zero, Cap.truthy, hfl0, empty_append_str,
        String.append_assoc]
  | named n =>
    by_cases hn : n = ""
    · subst hn
      by_cases hfl0 : fl = ""
      · subst hfl0
        have hncw : ncw = true := by
          cases hncw2 : ncw
          · rw [hncw2] at hb
            simp [Cap.truthy] at hb
          · rfl
        subst hncw
        simp [prettyStartStop, capStartStr, wrapRender, srep_zero, Cap.truthy, empty_append_str,
          String.append_assoc]
      · simp [prettyStartStop, capStartStr, wrapRender, srep_zero, Cap.truthy, hfl0, empty_append_str,
          String.append_assoc]
    · by_cases hfl0 : fl = ""
      · subst hfl0
        simp [prettyStartStop, capStartStr, wrapRender, srep_zero, Cap.truthy, hn, empty_append_str,
          String.append_assoc]
      · simp [prettyStartStop, capStartStr, wrapRender, srep_zero, Cap.truthy, hn, hfl0, empty_append_str,
          String.append_assoc]

/-- The full bundle for `Segment.pretty` at level 0 given the bundle for
`_pretty_raw`. -/
theorem prettyWrap_bundle (r T : String) (ncw : Bool) (cap : Cap) (fl : String)
    (ind : String) (hind : ∀ c ∈ ind.data, c = ' ')
    (hpr : partGood r T) (hT : strNoWS T = true)
    (hcap : cap.noWS = true) (hfl : strNoWS fl = true) :
    partGood (prettyWrap r ncw cap fl ind 0) (wrapRender T ncw cap fl) := by
  unfold prettyWrap
  split
  · rename_i hb
    simp only [Bool.and_eq_true, Bool.not_eq_true', decide_eq_true_eq] at hb
    have hmap : (splitlinesPy r).map (fun l => srep ind 0 ++ l) = splitlinesPy r := by
      rw [srep_zero]
      have hfun : (fun l => ("" : String) ++ l) = id := by
        funext l
        exact empty_append_str l
      rw [hfun, List.map_id]
    rw [hmap, hb.2, hb.1.2, wrapRender_plain T cap hb.1.1]
    exact partGood_rejoin_splitlines r T hpr
  · rename_i hb
    rw [← startStop_render ncw cap fl ind T hb]
    exact partGood_wrap r T _ _ _ (srep_spaces ind hind (0 + 1)) hpr hT
      (startStop_clean ncw cap fl ind hcap hfl).1 (startStop_clean ncw cap fl ind hcap hfl).2

/-- The pretty rendering of a whitespace-free segment at level 0
satisfies the bundle against the compact rendering, provided the
`_pretty_raw` output does against `_str_raw`. -/
theorem prettyPW (s : Seg) (hn : s.noWS = true) (ind : String)
    (hind : ∀ c ∈ ind.data, c = ' ')
    (hpr : partGood (s.prettyRaw ind) s.strRaw) :
    partGood (Seg.pretty s ind 0) s.render :=
  prettyWrap_bundle _ _ _ _ _ ind hind hpr (strRaw_clean s hn) (noWS_fields s hn).1
    (noWS_fields s hn).2

theorem splitNl_append_clean : ∀ (l u : List Char), (∀ c ∈ u, ¬ c = '\n') →
    ∃ init last, splitNl l = init ++ [last] ∧ splitNl (l ++ u) = init ++ [last ++ u]
  | [], u, hu => ⟨[], [], rfl, by rw [List.nil_append, splitNl_no_nl u hu]; rfl⟩
  | c :: l, u, hu => by
    obtain ⟨init, last, h1, h2⟩ := splitNl_append_clean l u hu
    by_cases hc : c = '\n'
    · subst hc
      refine ⟨[] :: init, last, ?_, ?_⟩
      · show [] :: splitNl l = _
        rw [h1]
        rfl
      · show [] :: splitNl (l ++ u) = _
        rw [h2]
        rfl
    · cases init with
      | nil =>
        refine ⟨[], c :: last, ?_, ?_⟩
        · simp only [splitNl, if_neg hc]
          rw [h1]
          rfl
        · show splitNl (c :: (l ++ u)) = _
          simp only [splitNl, if_neg hc]
          rw [h2]
          rfl
      | cons i is =>
        refine ⟨(c :: i) :: is, last, ?_, ?_⟩
        · simp only [splitNl, if_neg hc]
          rw [h1]
          rfl
        · show splitNl (c :: (l ++ u)) = _
          simp only [splitNl, if_neg hc]
          rw [h2]
          rfl

theorem dropLead_append_clean (l u : List Char) (hu : u.all cleanChar = true) :
    (l ++ u).dropWhile (fun c => c = ' ' || c = '\t')
      = l.dropWhile (fun c => c = ' ' || c = '\t') ++ u := by
  rw [List.dropWhile_append]
  split
  · rename_i h
    rw [List.isEmpty_iff] at h
    rw [h, dropLead_of_clean u hu, List.nil_append]
  · rfl

theorem stripConcat_append_clean (p u : String) (hu : strNoWS u = true) :
    stripConcat (p ++ u) = stripConcat p ++ u := by
  obtain ⟨init, last, h1, h2⟩ := splitNl_append_clean p.data u.data
    (fun c hc => by
      have := List.all_eq_true.mp hu c hc
      exact fun he => by rw [he] at this; exact absurd this (by decide))
  unfold stripConcat
  rw [data_append_str, h1, h2, List.map_append, List.map_append, List.flatten_append,
    List.flatten_append]
  simp only [List.map_cons, List.map_nil, List.flatten_cons, List.flatten_nil,
    List.append_nil]
  rw [dropLead_append_clean last u.data hu]
  have hfin : ∀ (A B : List Char) (v : String),
      String.mk (A ++ (B ++ v.data)) = String.mk (A ++ B) ++ v := by
    intro A B v
    show String.mk (A ++ (B ++ v.data)) = String.mk (A ++ B) ++ String.mk v.data
    rw [← mk_append_mk, List.append_assoc]
  exact hfin _ _ u

theorem linesOk_append_clean (p u : String) (hp : linesOk p = true)
    (hu : strNoWS u = true) : linesOk (p ++ u) = true := by
  obtain ⟨init, last, h1, h2⟩ := splitNl_append_clean p.data u.data
    (fun c hc => by
      have := List.all_eq_true.mp hu c hc
      exact fun he => by rw [he] at this; exact absurd this (by decide))
  unfold linesOk at hp ⊢
  rw [data_append_str, h2, List.all_append]
  rw [h1, List.all_append] at hp
  simp only [List.all_cons, List.all_nil, Bool.and_true, Bool.and_eq_true] at hp ⊢
  refine ⟨hp.1, ?_⟩
  unfold lineOkCh at hp ⊢
  rw [dropLead_append_clean last u.data hu, List.all_append]
  simp only [Bool.and_eq_true]
  exact ⟨hp.2, hu⟩

theorem leadOk_append_clean (p u : String) (hp : leadOk p = true)
    (hu : strNoWS u = true) : leadOk (p ++ u) = true := by
  unfold leadOk at hp ⊢
  rw [data_append_str]
  cases hd : p.data with
  | nil => exact leadOk_of_clean u hu
  | cons c r =>
    rw [hd] at hp
    exact hp

/-- Appending newline-free clean text to both members preserves the
fragment bundle (this is the `Lazy._pretty_raw` situation: `+ "?"`). -/
theorem partGood_append_clean (p t u : String) (h : partGood p t)
    (hu : strNoWS u = true) : partGood (p ++ u) (t ++ u) :=
  ⟨by rw [stripConcat_append_clean p u hu, h.1],
   linesOk_append_clean p u h.2.1 hu,
   leadOk_append_clean p u h.2.2 hu⟩

/-- The per-element compact strings of `Or._str_raw` before the
`"|".join`. -/
def Args.orTargets : Args → List String
  | .nil => []
  | .cons a rest => a.pyStr :: rest.orTargets

theorem orJoin_eq_joinBar : ∀ (args : Args), args.orJoin = joinBar args.orTargets
  | .nil => rfl
  | .cons _ .nil => rfl
  | .cons a (.cons b rest) => by
    show a.pyStr ++ "|" ++ Args.orJoin (.cons b rest)
      = joinBar (a.pyStr :: b.pyStr :: Args.orTargets rest)
    rw [orJoin_eq_joinBar (.cons b rest)]
    rfl

theorem orTargets_clean : ∀ (args : Args), args.noWS = true →
    ∀ t ∈ args.orTargets, strNoWS t = true
  | .nil, _, t, ht => absurd ht (List.not_mem_nil t)
  | .cons a rest, h, t, ht => by
    simp only [Args.noWS, Bool.and_eq_true] at h
    rcases List.mem_cons.mp ht with h1 | h1
    · subst h1
      exact pyStr_clean a h.1
    · exact orTargets_clean rest h.2 t h1

theorem joinBar_clean : ∀ (ts : List String), (∀ t ∈ ts, strNoWS t = true) →
    strNoWS (joinBar ts) = true
  | [], _ => by decide
  | [t], h => h t (List.mem_singleton.mpr rfl)
  | t :: t2 :: ts, h => by
    show strNoWS (t ++ "|" ++ joinBar (t2 :: ts)) = true
    exact strNoWS_append _ _
      (strNoWS_append _ _ (h t (List.mem_cons_self t _)) (by decide))
      (joinBar_clean (t2 :: ts) (fun x hx => h x (List.mem_cons_of_mem t hx)))

theorem barNl_assoc (p X : String) : p ++ "\n|" ++ X = p ++ "\n" ++ ("|" ++ X) := by
  rw [String.append_assoc, String.append_assoc]
  rfl

theorem joinBarNl_bundle : ∀ (parts targets : List String),
    List.Forall₂ partGood parts targets → partGood (joinBarNl parts) (joinBar targets)
  | [], [], _ => partGood_of_clean "" (by decide)
  | p :: parts, t :: targets, h => by
    rcases h with _ | ⟨hpt, hrest⟩
    cases parts with
    | nil =>
      cases hrest
      exact hpt
    | cons p2 parts2 =>
      cases targets with
      | nil => cases hrest
      | cons t2 targets2 =>
        have ih := joinBarNl_bundle (p2 :: parts2) (t2 :: targets2) hrest
        show partGood (p ++ "\n|" ++ joinBarNl (p2 :: parts2))
          (t ++ "|" ++ joinBar (t2 :: targets2))
        rw [barNl_assoc]
        refine ⟨?_, ?_, ?_⟩
        · rw [stripConcat_append_nl, hpt.1, stripConcat_bar_pre _ ih.2.2, ih.1,
            ← String.append_assoc]
        · exact linesOk_append_nl _ _ hpt.2.1 (linesOk_bar_pre _ ih.2.2 ih.2.1)
        · exact leadOk_append _ _ (leadOk_append _ _ hpt.2.2 (by decide))
            (leadOk_bar_pre _)

theorem forall2_partGood_eq : ∀ (ps ts : List String), List.Forall₂ partGood ps ts →
    ps.any hasNl = false → ps = ts
  | [], [], _, _ => rfl
  | p :: ps, t :: ts, h, hnl => by
    rcases h with _ | ⟨hpt, hrest⟩
    simp only [List.any_cons, Bool.or_eq_false_iff] at hnl
    rw [partGood_single p t hpt hnl.1, forall2_partGood_eq ps ts hrest hnl.2]

/-- The bundle for the branch structure of `Or._pretty_raw`. -/
theorem orPR_bundle (parts targets : List String)
    (h : List.Forall₂ partGood parts targets)
    (hclean : ∀ t ∈ targets, strNoWS t = true) :
    partGood (if parts.any hasNl then joinBarNl parts else joinBar parts)
      (joinBar targets) := by
  split
  · exact joinBarNl_bundle parts targets h
  · rename_i hnl
    rw [forall2_partGood_eq parts targets h (Bool.not_eq_true _ ▸ Bool.of_not_eq_true hnl)]
    exact partGood_of_clean _ (joinBar_clean targets hclean)

/-- The per-element compact contributions of the inherited
`Segment._str_raw` before concatenation. -/
def Args.escTargets : Args → List String
  | .nil => []
  | .cons (.str s) rest => reEscape s :: rest.escTargets
  | .cons (.seg sg) rest =>
    wrapRender sg.strRaw sg.ncw sg.capture sg.flags :: rest.escTargets

theorem catStrs_escTargets : ∀ (args : Args), catStrs args.escTargets = args.escJoin
  | .nil => rfl
  | .cons (.str s) rest => by
    show reEscape s ++ catStrs rest.escTargets = reEscape s ++ rest.escJoin
    rw [catStrs_escTargets rest]
  | .cons (.seg sg) rest => by
    show wrapRender sg.strRaw sg.ncw sg.capture sg.flags ++ catStrs rest.escTargets
      = wrapRender sg.strRaw sg.ncw sg.capture sg.flags ++ rest.escJoin
    rw [catStrs_escTargets rest]

theorem condMulti_assoc (i A B : String) :
    "(?(" ++ i ++ ")\n" ++ A ++ "\n" ++ B ++ "\n)"
      = ("(?(" ++ i ++ ")") ++ "\n" ++ (A ++ "\n" ++ (B ++ "\n" ++ ")")) := by
  have h1 : (")\n" : String) = ")" ++ "\n" := rfl
  have h2 : ("\n)" : String) = "\n" ++ ")" := rfl
  rw [h1, h2]
  simp [String.append_assoc]

/-- The bundle for the two output branches of `Conditional._pretty_raw`
against `Conditional._str_raw`. -/
theorem conditional_bundle (interp yesP yesT noP noT ind : String)
    (hind : ∀ c ∈ ind.data, c = ' ')
    (hi : strNoWS interp = true)
    (hyes : partGood yesP yesT) (hyT : strNoWS yesT = true)
    (hno : partGood noP noT) (hnT : strNoWS noT = true) :
    partGood
      (if hasNl yesP || hasNl noP then
        "(?(" ++ interp ++ ")\n" ++ joinNl ((splitAllNl yesP).map (fun l => ind ++ l)) ++
          "\n" ++ joinNl ((splitAllNl noP).map (fun l => ind ++ l)) ++ "\n)"
      else "(?(" ++ interp ++ ")" ++ yesP ++ noP ++ ")")
      ("(?(" ++ interp ++ ")" ++ yesT ++ noT ++ ")") := by
  have hs0 : strNoWS ("(?(" ++ interp ++ ")") = true :=
    strNoWS_append _ _ (strNoWS_append _ _ (by decide) hi) (by decide)
  split
  · rw [condMulti_assoc]
    refine ⟨?_, ?_, ?_⟩
    · rw [stripConcat_append_nl, stripConcat_append_nl, stripConcat_append_nl,
        stripConcat_of_clean _ hs0,
        indent_rejoin_all_sc yesP yesT ind hind hyes,
        indent_rejoin_all_sc noP noT ind hind hno,
        stripConcat_of_clean ")" (by decide)]
      simp [String.append_assoc]
    · apply linesOk_append_nl
      · exact linesOk_of_clean _ hs0
      · apply linesOk_append_nl
        · exact indent_rejoin_all_linesOk yesP ind hind hyes.2.1
        · apply linesOk_append_nl
          · exact indent_rejoin_all_linesOk noP ind hind hno.2.1
          · exact linesOk_of_clean ")" (by decide)
    · rfl
  · rename_i hcond
    simp only [Bool.or_eq_true, not_or, Bool.not_eq_true] at hcond
    rw [partGood_single yesP yesT hyes hcond.1, partGood_single noP noT hno hcond.2]
    exact partGood_of_clean _
      (strNoWS_append _ _ (strNoWS_append _ _ (strNoWS_append _ _ hs0 hyT) hnT) (by decide))

mutual
/-- Core correspondence: the `_pretty_raw` output of every whitespace-free
segment satisfies the fragment bundle against its `_str_raw` output. -/
theorem segPR : ∀ (s : Seg) (ind : String), (∀ c ∈ ind.data, c = ' ') →
    s.noWS = true → partGood (s.prettyRaw ind) s.strRaw
  | .oneOf args cap fl, ind, _, hn => by
    simp only [Seg.prettyRaw]
    exact partGood_of_clean _ (strRaw_clean (.oneOf args cap fl) hn)
  | .noneOf args cap fl, ind, _, hn => by
    simp only [Seg.prettyRaw]
    exact partGood_of_clean _ (strRaw_clean (.noneOf args cap fl) hn)
  | .quant k lz args cap fl, ind, _, hn => by
    simp only [Seg.prettyRaw]
    exact partGood_of_clean _ (strRaw_clean (.quant k lz args cap fl) hn)
  | .flagSeg codes, ind, _, hn => by
    simp only [Seg.prettyRaw]
    exact partGood_of_clean _ (strRaw_clean (.flagSeg codes) hn)
  | .raw e args cap fl, ind, _, hn => by
    simp only [Seg.prettyRaw]
    exact partGood_of_clean _ (strRaw_clean (.raw e args cap fl) hn)
  | .captured t cap fl, ind, _, hn => by
    simp only [Seg.prettyRaw]
    exact partGood_of_clean _ (strRaw_clean (.captured t cap fl) hn)
  | .look k args cap fl, ind, hind, hn => by
    simp only [Seg.noWS, Bool.and_eq_true] at hn
    have hb : partGood (joinNl (args.basePrettyList ind)) args.escJoin := by
      have h2 := joinNl_bundle _ _ (argsBasePR args ind hind hn.1.1)
      rwa [catStrs_escTargets] at h2
    simp only [Seg.prettyRaw, Seg.strRaw]
    exact partGood_wrap _ _ ("(" ++ k.pfx) ")" ind hind hb
      (escJoin_clean args hn.1.1) (strNoWS_append _ _ (by decide) (pfx_clean k))
      (by decide)
  | .lazyMod args cap fl, ind, hind, hn => by
    simp only [Seg.noWS, Bool.and_eq_true] at hn
    have hb : partGood (joinNl (args.basePrettyList ind)) args.escJoin := by
      have h2 := joinNl_bundle _ _ (argsBasePR args ind hind hn.1.1)
      rwa [catStrs_escTargets] at h2
    simp only [Seg.prettyRaw, Seg.strRaw]
    exact partGood_append_clean _ _ "?" hb (by decide)
  | .inlineFlag args cap fl, ind, hind, hn => by
    simp only [Seg.noWS, Bool.and_eq_true] at hn
    have hb : partGood (joinNl (args.basePrettyList ind)) args.escJoin := by
      have h2 := joinNl_bundle _ _ (argsBasePR args ind hind hn.1.1)
      rwa [catStrs_escTargets] at h2
    simp only [Seg.prettyRaw, Seg.strRaw]
    exact hb
  | .captureSeg args cap fl, ind, hind, hn => by
    simp only [Seg.noWS, Bool.and_eq_true] at hn
    have hb : partGood (joinNl (args.basePrettyList ind)) args.escJoin := by
      have h2 := joinNl_bundle _ _ (argsBasePR args ind hind hn.1.1)
      rwa [catStrs_escTargets] at h2
    simp only [Seg.prettyRaw, Seg.strRaw]
    exact hb
  | .nonCapture args cap fl, ind, hind, hn => by
    simp only [Seg.noWS, Bool.and_eq_true] at hn
    have hb : partGood (joinNl (args.basePrettyList ind)) args.escJoin := by
      have h2 := joinNl_bundle _ _ (argsBasePR args ind hind hn.1.1)
      rwa [catStrs_escTargets] at h2
    simp only [Seg.prettyRaw, Seg.strRaw]
    exact hb
  | .concat args cap fl, ind, hind, hn => by
    simp only [Seg.noWS, Bool.and_eq_true] at hn
    have hb : partGood (joinNl (args.basePrettyList ind)) args.escJoin := by
      have h2 := joinNl_bundle _ _ (argsBasePR args ind hind hn.1.1)
      rwa [catStrs_escTargets] at h2
    simp only [Seg.prettyRaw, Seg.strRaw]
    exact hb
  | .orSeg args cap fl, ind, hind, hn => by
    simp only [Seg.noWS, Bool.and_eq_true] at hn
    have h := orPR_bundle (args.orPrettyList ind) args.orTargets
      (argsOrPR args ind hind hn.1.1) (orTargets_clean args hn.1.1)
    simp only [Seg.prettyRaw, Seg.strRaw]
    rw [orJoin_eq_joinBar]
    exact h
  | .conditional sel yes noBr cap fl, ind, hind, hn => by
    simp only [Seg.noWS, Bool.and_eq_true] at hn
    have hsel : sel.target.noWS = true := hn.1.1.1.1
    have hyn : yes.noWS = true := hn.1.1.1.2
    have hnn : noBr.noWS = true := hn.1.1.2
    cases yes with
    | str s =>
      cases noBr with
      | none =>
        simp only [Seg.prettyRaw, Seg.strRaw]
        exact conditional_bundle sel.target.interp s s "" "" ind hind
          (interp_clean sel.target hsel) (partGood_of_clean s hyn)
          (pyStr_clean (.str s) hyn) (partGood_of_clean "" (by decide)) (by decide)
      | some a =>
        cases a with
        | str s2 =>
          have hcl : strNoWS (if s2 = "" then "" else "|" ++ s2) = true := by
            split
            · decide
            · exact strNoWS_append _ _ (by decide) hnn
          simp only [Seg.prettyRaw, Seg.strRaw]
          exact conditional_bundle sel.target.interp s s _ _ ind hind
            (interp_clean sel.target hsel) (partGood_of_clean s hyn)
            (pyStr_clean (.str s) hyn) (partGood_of_clean _ hcl) hcl
        | seg sg =>
          have hw : partGood
              (prettyWrap (sg.prettyRaw ind) sg.ncw sg.capture sg.flags ind 0)
              (wrapRender sg.strRaw sg.ncw sg.capture sg.flags) :=
            prettyWrap_bundle _ _ _ _ _ ind hind (segPR sg ind hind hnn)
              (strRaw_clean sg hnn) (noWS_fields sg hnn).1 (noWS_fields sg hnn).2
          simp only [Seg.prettyRaw, Seg.strRaw]
          exact conditional_bundle sel.target.interp s s _ _ ind hind
            (interp_clean sel.target hsel) (partGood_of_clean s hyn)
            (pyStr_clean (.str s) hyn) (partGood_bar_pre _ _ hw)
            (strNoWS_append _ _ (by decide) (render_clean sg hnn))
    | seg sgY =>
      have hwY : partGood
          (prettyWrap (sgY.prettyRaw ind) sgY.ncw sgY.capture sgY.flags ind 0)
          (wrapRender sgY.strRaw sgY.ncw sgY.capture sgY.flags) :=
        prettyWrap_bundle _ _ _ _ _ ind hind (segPR sgY ind hind hyn)
          (strRaw_clean sgY hyn) (noWS_fields sgY hyn).1 (noWS_fields sgY hyn).2
      cases noBr with
      | none =>
        simp only [Seg.prettyRaw, Seg.strRaw]
        exact conditional_bundle sel.target.interp _ _ "" "" ind hind
          (interp_clean sel.target hsel) hwY
          (pyStr_clean (.seg sgY) hyn) (partGood_of_clean "" (by decide)) (by decide)
      | some a =>
        cases a with
        | str s2 =>
          have hcl : strNoWS (if s2 = "" then "" else "|" ++ s2) = true := by
            split
            · decide
            · exact strNoWS_append _ _ (by decide) hnn
          simp only [Seg.prettyRaw, Seg.strRaw]
          exact conditional_bundle sel.target.interp _ _ _ _ ind hind
            (interp_clean sel.target hsel) hwY
            (pyStr_clean (.seg sgY) hyn) (partGood_of_clean _ hcl) hcl
        | seg sg =>
          have hw : partGood
              (prettyWrap (sg.prettyRaw ind) sg.ncw sg.capture sg.flags ind 0)
              (wrapRender sg.strRaw sg.ncw sg.capture sg.flags) :=
            prettyWrap_bundle _ _ _ _ _ ind hind (segPR sg ind hind hnn)
              (strRaw_clean sg hnn) (noWS_fields sg hnn).1 (noWS_fields sg hnn).2
          simp only [Seg.prettyRaw, Seg.strRaw]
          exact conditional_bundle sel.target.interp _ _ _ _ ind hind
            (interp_clean sel.target hsel) hwY
            (pyStr_clean (.seg sgY) hyn) (partGood_bar_pre _ _ hw)
            (strNoWS_append _ _ (by decide) (render_clean sg hnn))

/-- Elementwise bundle for the list built by the inherited
`Segment._pretty_raw` against the contributions of `_str_raw`. -/
theorem argsBasePR : ∀ (args : Args) (ind : String), (∀ c ∈ ind.data, c = ' ') →
    args.noWS = true →
    List.Forall₂ partGood (args.basePrettyList ind) args.escTargets
  | .nil, _, _, _ => List.Forall₂.nil
  | .cons (.str s) rest, ind, hind, hn => by
    simp only [Args.noWS, Arg.noWS, Bool.and_eq_true] at hn
    exact List.Forall₂.cons (partGood_of_clean _ (reEscape_clean s hn.1))
      (argsBasePR rest ind hind hn.2)
  | .cons (.seg sg) rest, ind, hind, hn => by
    simp only [Args.noWS, Arg.noWS, Bool.and_eq_true] at hn
    exact List.Forall₂.cons
      (prettyWrap_bundle _ _ _ _ _ ind hind (segPR sg ind hind hn.1)
        (strRaw_clean sg hn.1) (noWS_fields sg hn.1).1 (noWS_fields sg hn.1).2)
      (argsBasePR rest ind hind hn.2)

/-- Elementwise bundle for the `out` list of `Or._pretty_raw` against the
contributions of `Or._str_raw`. -/
theorem argsOrPR : ∀ (args : Args) (ind : String), (∀ c ∈ ind.data, c = ' ') →
    args.noWS = true →
    List.Forall₂ partGood (args.orPrettyList ind) args.orTargets
  | .nil, _, _, _ => List.Forall₂.nil
  | .cons (.str s) rest, ind, hind, hn => by
    simp only [Args.noWS, Arg.noWS, Bool.and_eq_true] at hn
    exact List.Forall₂.cons (partGood_of_clean s hn.1) (argsOrPR rest ind hind hn.2)
  | .cons (.seg sg) rest, ind, hind, hn => by
    simp only [Args.noWS, Arg.noWS, Bool.and_eq_true] at hn
    exact List.Forall₂.cons
      (prettyWrap_bundle _ _ _ _ _ ind hind (segPR sg ind hind hn.1)
        (strRaw_clean sg hn.1) (noWS_fields sg hn.1).1 (noWS_fields sg hn.1).2)
      (argsOrPR rest ind hind hn.2)
end

/-- C3 (amended): for every tree all of whose stored strings are free of
spaces, tabs and line-break characters, and which renders without
crashing, stripping the leading whitespace from each line of the pretty
rendering (with any all-space indent string) and concatenating all lines
with no separator yields exactly the compact rendering. -/
theorem c3_strip_pretty_eq_render (s : Seg) (ind : String)
    (hind : ∀ c ∈ ind.data, c = ' ') (hn : s.noWS = true)
    (_hc : s.crashFree = true) :
    stripConcat (Seg.pretty s ind 0) = s.render :=
  (prettyPW s hn ind hind (segPR s ind hind hn)).1

/-- Witness for `c3_strip_pretty_eq_render`: a capture group holding a
literal and a non-capturing alternation, whose pretty rendering is
genuinely multi-line. -/
theorem c3_strip_pretty_eq_render_witness :
    (∀ c ∈ ("  " : String).data, c = ' ')
    ∧ Seg.noWS (.captureSeg (.cons (.str "ab") (.cons (.seg (.orSeg (.cons (.str "a")
        (.cons (.str "b") .nil)) .none "")) .nil)) .anon "") = true
    ∧ Seg.crashFree (.captureSeg (.cons (.str "ab") (.cons (.seg (.orSeg (.cons (.str "a")
        (.cons (.str "b") .nil)) .none "")) .nil)) .anon "") = true
    ∧ stripConcat (Seg.pretty (.captureSeg (.cons (.str "ab") (.cons (.seg (.orSeg
        (.cons (.str "a") (.cons (.str "b") .nil)) .none "")) .nil)) .anon "") "  " 0)
      = Seg.render (.captureSeg (.cons (.str "ab") (.cons (.seg (.orSeg (.cons (.str "a")
        (.cons (.str "b") .nil)) .none "")) .nil)) .anon "") :=
  ⟨by decide, by decide, by decide,
   c3_strip_pretty_eq_render _ "  " (by decide) (by decide) (by decide)⟩
